import Mathlib

/-
Verification of the a1notation library: a parser and formatter for
spreadsheet "A1" range references (`Sheet1!A1:B2`, `'My Sheet'!A:A`, `A1`).

The embedding below follows the current implementation (the class
`A1Notation`, its `Parser`, the cell codec and the sheet-name escaper);
the repository also ships an older variant of the same module, embedded
further down under the `Old...` names.  Scanner positions are modelled by
the list of remaining code points; the scanner's end-of-input sentinel
(the string "EOF") is the empty list.  JavaScript numbers are modelled as
Nat: every number the library manipulates is a non-negative integer.  The
Nat model is exact only below 2^53 = 9007199254740992: JavaScript numbers
are IEEE-754 doubles, so `parseInt` rounds a digit run whose value is
2^53 or more to the nearest double, and `Number.prototype.toString`
switches from plain decimal to exponential notation ("1e+21") at 10^21.
Theorems whose truth depends on numeric values therefore carry explicit
hypotheses confining the row bounds to [1, 2^53), the range on which the
embedding and the program agree; behaviour beyond that range is
floating-point behaviour this embedding does not model.
JavaScript truthiness of the optional fields is modelled by `truthyN` /
`truthyS` (0, the empty string and `undefined` are falsy).
-/

/-! ### Character classes (the source's regexes and char-code comparisons) -/

/-- The character class `[a-zA-Z]` (case-insensitive `[a-z]`), by code point. -/
def isLetterCh (c : Char) : Bool :=
  decide (65 ≤ c.toNat ∧ c.toNat ≤ 90) || decide (97 ≤ c.toNat ∧ c.toNat ≤ 122)

/-- The character class `[0-9]`, by code point. -/
def isDigitCh (c : Char) : Bool := decide (48 ≤ c.toNat ∧ c.toNat ≤ 57)

/-- The character class `[a-zA-Z0-9]` used by `parseName` and the top-level
dispatch in `Parser.parse`. -/
def isAlnumCh (c : Char) : Bool := isLetterCh c || isDigitCh c

/-! ### Result type

A call into the library either returns a value, throws an `Error` with a
message, or fails to terminate (the parser has one genuinely diverging
loop, see `parseQuotedNameLoop`). -/

/-- Outcome of running a piece of the library: a value, a thrown `Error`
message, or non-termination. -/
inductive PRes (α : Type) where
  | ok (a : α)
  | err (msg : String)
  | diverge
deriving Repr, DecidableEq

/-! ### The range model -/

/-- The `A1Notation` class: an optional sheet name and four optional 1-based
bounds.  Named `A1Notation` as in the source. -/
structure A1Notation where
  sheetName : Option String
  left : Option Nat
  top : Option Nat
  right : Option Nat
  bottom : Option Nat
deriving Repr, DecidableEq

/-- JavaScript truthiness of an optional number (`undefined` and `0` are falsy). -/
def truthyN : Option Nat → Bool
  | some n => decide (n ≠ 0)
  | none => false

/-- JavaScript truthiness of an optional string (`undefined` and `""` are falsy). -/
def truthyS : Option String → Bool
  | some s => decide (s ≠ "")
  | none => false

/-- The `A1Notation` constructor: stores the five arguments; when `right`
and `bottom` are both omitted it defaults them to `left` and `top`.
It performs no other validation and never throws. -/
def A1Notation.construct (sheetName : Option String)
    (left top right bottom : Option Nat) : A1Notation :=
  if right = none ∧ bottom = none then ⟨sheetName, left, top, left, top⟩
  else ⟨sheetName, left, top, right, bottom⟩

/-! ### Column codec (`fromBase26` / `toBase26`) -/

/-- The loop of `fromBase26`: `n = n * 26 + code - charCodeA + 1` for
uppercase, likewise for lowercase, error on any other character. -/
def fromBase26Aux (n : Nat) : List Char → Except String Nat
  | [] => .ok n
  | ch :: rest =>
    if 65 ≤ ch.toNat ∧ ch.toNat ≤ 90 then
      fromBase26Aux (n * 26 + (ch.toNat - 65) + 1) rest
    else if 97 ≤ ch.toNat ∧ ch.toNat ≤ 122 then
      fromBase26Aux (n * 26 + (ch.toNat - 97) + 1) rest
    else .error (s!"invalid character: {ch}")

/-- `fromBase26`: bijective base-26 decoding of a column-letter run. -/
def fromBase26 (s : List Char) : Except String Nat := fromBase26Aux 0 s

/-- The loop of `toBase26`: while `n > 0` do `n--`, prepend `'A' + n % 26`,
`n = n / 26`.  The first argument is step fuel making the recursion
structural (the loop variable strictly decreases, so fuel equal to the
initial value is always enough; `fromBase26Aux_toBase26Go` and the length
lemmas below are proved under that `n ≤ fuel` invariant). -/
def toBase26Go : Nat → Nat → List Char → List Char
  | 0, _, acc => acc
  | _ + 1, 0, acc => acc
  | fuel + 1, m + 1, acc => toBase26Go fuel (m / 26) (Char.ofNat (65 + m % 26) :: acc)

/-- `toBase26`: bijective base-26 encoding of a column number. -/
def toBase26 (num : Nat) : String := String.mk (toBase26Go num num [])

/-! ### Decimal rendering and parsing of row numbers -/

/-- The decimal digit character for `k < 10`. -/
def digitChar10 (k : Nat) : Char := Char.ofNat (48 + k)

/-- Decimal digits of `n`, most significant first, with structural step
fuel (each division by 10 strictly decreases the value, so fuel equal to
the value is always enough; `parseDec_natDigitsGo` is proved under that
`n ≤ fuel` invariant). -/
def natDigitsGo : Nat → Nat → List Char
  | 0, n => [digitChar10 n]
  | fuel + 1, n =>
    if n < 10 then [digitChar10 n]
    else natDigitsGo fuel (n / 10) ++ [digitChar10 (n % 10)]

/-- Decimal digits of `n`, most significant first (JavaScript
`Number.prototype.toString` on a non-negative integer below 10^21;
at 10^21 and above JavaScript switches to exponential notation, e.g.
"1e+21", which this plain-decimal model does not cover — theorems that
rely on rendering confine the value below 2^53 < 10^21). -/
def natDigits (n : Nat) : List Char := natDigitsGo n n

/-- JavaScript rendering of a non-negative integer.  Faithful to
`Number.prototype.toString` exactly for values below 10^21, where
JavaScript renders plain decimal digits; from 10^21 on it renders
exponential notation instead. -/
def natToString (n : Nat) : String := String.mk (natDigits n)

/-- `parseInt(s, 10)` on a string of decimal digits, as the exact value of
the digit run.  JavaScript returns a double, so this is faithful exactly
when the value is below 2^53 = 9007199254740992; a longer run is rounded
by the program to the nearest double, which this Nat model does not
represent — theorems that rely on parsed numeric values confine them
below 2^53. -/
def parseDec (s : List Char) : Nat := s.foldl (fun a c => a * 10 + (c.toNat - 48)) 0

/-! ### Cell fragments -/

/-- The `Cell` interface: optional column and row numbers. -/
structure Cell where
  col : Option Nat
  row : Option Nat
deriving Repr, DecidableEq

/-- The test `reCell.test(s)` for `reCell = /^([a-z]{0,3})([0-9]+)$/i`:
at most three leading letters followed by at least one digit, nothing else.
(The regex matches exactly the strings of the form letter-run ++ digit-run
with those lengths; the maximal letter prefix realises the decomposition.) -/
def reCellTest (s : String) : Bool :=
  let letters := s.data.takeWhile isLetterCh
  let rest := s.data.dropWhile isLetterCh
  decide (letters.length ≤ 3) && !rest.isEmpty && rest.all isDigitCh

/-- The free function `parseCell`: matches `/^([a-z]{0,3})([0-9]*)$/i`,
decodes the letter group (if non-empty) with `fromBase26` and the digit
group (if non-empty) with `parseInt`. -/
def parseCell (s : String) : Except String Cell :=
  let letters := s.data.takeWhile isLetterCh
  let rest := s.data.dropWhile isLetterCh
  if letters.length ≤ 3 ∧ rest.all isDigitCh then
    match (if letters.isEmpty then Except.ok none
           else Except.map some (fromBase26 letters) : Except String (Option Nat)) with
    | .error e => .error e
    | .ok col => .ok ⟨col, if rest.isEmpty then none else some (parseDec rest)⟩
  else .error ("invalid cell name: " ++ s)

/-! ### Sheet-name escaping -/

/-- `s.replace(/'/g, "''")`: double every single quote. -/
def doubleQuotes : List Char → List Char
  | [] => []
  | c :: rest =>
    if c = '\'' then '\'' :: '\'' :: doubleQuotes rest
    else c :: doubleQuotes rest

/-- `escapeSheetName`: quote a cell-like name, leave a plain alphanumeric
name bare, and quote anything else with internal quotes doubled. -/
def escapeSheetName (s : String) : String :=
  if reCellTest s then "'" ++ s ++ "'"
  else if !s.data.isEmpty && s.data.all isAlnumCh then s
  else "'" ++ String.mk (doubleQuotes s.data) ++ "'"

/-! ### Formatting (`A1Notation.prototype.toString`) -/

/-- One cell text of `toString`: column letters (if the column is truthy)
then the row digits (if the row is truthy). -/
def cellText (col row : Option Nat) : String :=
  (if truthyN col then toBase26 (col.getD 0) else "") ++
  (if truthyN row then natToString (row.getD 0) else "")

/-- The tail of `toString`: prefix the escaped sheet name (when truthy)
with a `!` before a non-empty cell portion. -/
def sheetWrap (sn : Option String) (cell : String) : String :=
  if truthyS sn then
    if cell ≠ "" then escapeSheetName (sn.getD "") ++ "!" ++ cell
    else escapeSheetName (sn.getD "")
  else cell

/-- `A1Notation.prototype.toString`. -/
def A1Notation.toString (a : A1Notation) : String :=
  let cell1 := cellText a.left a.top
  let cell2 := cellText a.right a.bottom
  let cell :=
    if truthyN a.left ∧ truthyN a.right ∧ truthyN a.top ∧ truthyN a.bottom then
      if a.left = a.right ∧ a.top = a.bottom then cell1
      else cell1 ++ ":" ++ cell2
    else if cell1 ≠ "" ∧ cell2 ≠ "" then cell1 ++ ":" ++ cell2
    else cell1
  sheetWrap a.sheetName cell

/-! ### The parser -/

/-- The parser's intermediate result: raw text fragments. -/
structure InterimResult where
  sheetName : Option String
  cell1 : Option String
  cell2 : Option String
deriving Repr, DecidableEq

/-- `Parser.parseName`: consume a maximal run of `[a-zA-Z0-9]`; an empty
run is the error `invalid cell name`. -/
def parseName (s : List Char) : Except String (String × List Char) :=
  let name := s.takeWhile isAlnumCh
  if name.isEmpty then .error "invalid cell name"
  else .ok (String.mk name, s.dropWhile isAlnumCh)

/-- The scanning loop of `Parser.parseQuotedName`.  At a quote it consumes
it and breaks unless another quote follows (a doubled `''` is consumed as
one literal quote).  At end of input the source compares the sentinel
string "EOF" with `"'"`, appends the sentinel to the name and advances the
cursor, which is already past the end: the loop never exits, so that case
denotes non-termination (`.diverge`; `parseQuotedNameLoopFuel` below is the
step-indexed version witnessing this). -/
def parseQuotedNameLoop : List Char → List Char → PRes (List Char × List Char)
  | [], _ => .diverge
  | c :: rest, name =>
    if c = '\'' then
      match rest with
      | c2 :: rest2 =>
        if c2 = '\'' then parseQuotedNameLoop rest2 (name ++ ['\''])
        else .ok (name, rest)
      | [] => .ok (name, [])
    else parseQuotedNameLoop rest (name ++ [c])

/-- `Parser.parseQuotedName`: skip the opening quote, run the loop, and
reject an empty name with `invalid sheet name`. -/
def parseQuotedName (s : List Char) : PRes (String × List Char) :=
  match s with
  | [] => .err "unexpected character: EOF"
  | c :: rest =>
    if c = '\'' then
      match parseQuotedNameLoop rest [] with
      | .ok (name, rest2) =>
        if name.isEmpty then .err "invalid sheet name"
        else .ok (String.mk name, rest2)
      | .err e => .err e
      | .diverge => .diverge
    else .err (s!"unexpected character: {c}")

/-- The step-indexed (fuel) transcription of the `parseQuotedName` scanning
loop, exactly as the source executes it: at end of input the character is
the sentinel string "EOF", which is not `"'"`, so the loop body appends the
sentinel's characters to the name and advances the cursor past the end.
`none` means the loop has not returned within the given number of
iterations. -/
def parseQuotedNameLoopFuel : Nat → List Char → List Char → Option (List Char × List Char)
  | 0, _, _ => none
  | fuel + 1, s, name =>
    match s with
    | [] => parseQuotedNameLoopFuel fuel [] (name ++ ['E', 'O', 'F'])
    | c :: rest =>
      if c = '\'' then
        match rest with
        | c2 :: rest2 =>
          if c2 = '\'' then parseQuotedNameLoopFuel fuel rest2 (name ++ ['\''])
          else some (name, rest)
        | [] => some (name, [])
      else parseQuotedNameLoopFuel fuel rest (name ++ [c])

/-- `Parser.parseSheetNameAndCell`: a quoted sheet name, then nothing, or
`!` and one cell, or `!` cell `:` cell. -/
def Parser.parseSheetNameAndCell (s : List Char) : PRes InterimResult :=
  match parseQuotedName s with
  | .err e => .err e
  | .diverge => .diverge
  | .ok (sheetName, rest) =>
    match rest with
    | [] => .ok ⟨some sheetName, none, none⟩
    | c :: rest2 =>
      if c = '!' then
        match parseName rest2 with
        | .error e => .err e
        | .ok (cell1, rest3) =>
          match rest3 with
          | [] => .ok ⟨some sheetName, some cell1, some cell1⟩
          | c2 :: rest4 =>
            if c2 = ':' then
              match parseName rest4 with
              | .error e => .err e
              | .ok (cell2, rest5) =>
                match rest5 with
                | [] => .ok ⟨some sheetName, some cell1, some cell2⟩
                | c3 :: _ => .err (s!"expected EOF, but got {c3}")
            else .err (s!"expected \":\", but got {c2}")
      else .err (s!"expected \"!\", but got {c}")

/-- `Parser.parseCell` (the bare branch): a maximal alphanumeric run, then
end of input (cell-like makes it a single cell, otherwise a bare sheet
name), or `!` and one or two cells, or `:` and a second cell. -/
def Parser.parseCell (s : List Char) : PRes InterimResult :=
  match parseName s with
  | .error e => .err e
  | .ok (name, rest) =>
    match rest with
    | [] =>
      if reCellTest name then .ok ⟨none, some name, some name⟩
      else .ok ⟨some name, none, none⟩
    | c :: rest2 =>
      if c = '!' then
        match parseName rest2 with
        | .error e => .err e
        | .ok (cell1, rest3) =>
          match rest3 with
          | [] => .ok ⟨some name, some cell1, some cell1⟩
          | c2 :: rest4 =>
            if c2 = ':' then
              match parseName rest4 with
              | .error e => .err e
              | .ok (cell2, rest5) =>
                match rest5 with
                | [] => .ok ⟨some name, some cell1, some cell2⟩
                | c3 :: _ => .err (s!"expected EOF, but got {c3}")
            else .err (s!"unexpected character: {c2}")
      else if c = ':' then
        match parseName rest2 with
        | .error e => .err e
        | .ok (cell2, rest3) =>
          match rest3 with
          | [] => .ok ⟨none, some name, some cell2⟩
          | c2 :: _ => .err (s!"expected EOF, but got {c2}")
      else .err (s!"expected \"!\" or \":\", but got {c}")

/-- `Parser.parse`: dispatch on the first character.  On empty input the
peeked character is the sentinel string "EOF", and the test
`/[a-z0-9]/i.test(ch)` is true of it (the regex is unanchored and the
sentinel contains letters), so empty input also enters `parseCell`, which
then fails in `parseName`. -/
def Parser.parse (s : List Char) : PRes InterimResult :=
  match s with
  | [] => Parser.parseCell []
  | c :: _ =>
    if c = '\'' then Parser.parseSheetNameAndCell s
    else if isAlnumCh c then Parser.parseCell s
    else .err (s!"unexpected character: {c}")

/-- The guarded use of `parseCell` in `A1Notation.parse`: `if (cell1)` runs
the decoder only on a truthy fragment; otherwise row and column stay
`undefined`. -/
def resolveCell (oc : Option String) : Except String Cell :=
  if truthyS oc then parseCell (oc.getD "") else .ok ⟨none, none⟩

/-- `A1Notation.parse`: run the parser, decode the fragments, and hand the
bounds to the constructor. -/
def A1Notation.parse (s : String) : PRes A1Notation :=
  match Parser.parse s.data with
  | .err e => .err e
  | .diverge => .diverge
  | .ok ir =>
    match resolveCell ir.cell1 with
    | .error e => .err e
    | .ok c1 =>
      match resolveCell ir.cell2 with
      | .error e => .err e
      | .ok c2 => .ok (A1Notation.construct ir.sheetName c1.col c1.row c2.col c2.row)

/-! ### The older implementation (`src/mod.ts`)

Its scanner, `parseName`, `parseQuotedName`, cell codec, `toString` and
`escapeSheetName` are textually identical to the current ones, so those
embeddings are shared.  Its parser differs in exactly one return: a quoted
sheet name followed by a single cell yields `{ sheetName, cell1 }` with no
`cell2`.  Its `A1Notation.parse` builds the object by direct field
assignment (no constructor defaulting), and its constructor has the
signature `(sheetName?, top?, bottom?, left?, right?)` with
`left = left || top` and `right = right || left`. -/

/-- The older `Parser.parse` (quoted branch inlined; the bare branch is
textually identical to the current `Parser.parseCell` and is reused). -/
def OldParser.parseQuoted (s : List Char) : PRes InterimResult :=
  match parseQuotedName s with
  | .err e => .err e
  | .diverge => .diverge
  | .ok (sheetName, rest) =>
    match rest with
    | [] => .ok ⟨some sheetName, none, none⟩
    | c :: rest2 =>
      if c = '!' then
        match parseName rest2 with
        | .error e => .err e
        | .ok (cell1, rest3) =>
          match rest3 with
          | [] => .ok ⟨some sheetName, some cell1, none⟩
          | c2 :: rest4 =>
            if c2 = ':' then
              match parseName rest4 with
              | .error e => .err e
              | .ok (cell2, rest5) =>
                match rest5 with
                | [] => .ok ⟨some sheetName, some cell1, some cell2⟩
                | c3 :: _ => .err (s!"expected EOF, but got {c3}")
            else .err (s!"expected \":\", but got {c2}")
      else .err (s!"expected \"!\", but got {c}")

/-- The older `Parser.parse`, top-level dispatch (same as the current one
except that the quoted branch is the inlined `OldParser.parseQuoted`). -/
def OldParser.parse (s : List Char) : PRes InterimResult :=
  match s with
  | [] => Parser.parseCell []
  | c :: _ =>
    if c = '\'' then OldParser.parseQuoted s
    else if isAlnumCh c then Parser.parseCell s
    else .err (s!"unexpected character: {c}")

/-- JavaScript `a || b` on optional numbers: `b` when `a` is falsy. -/
def jsOr (a b : Option Nat) : Option Nat := if truthyN a then a else b

/-- The older constructor, signature `(sheetName?, top?, bottom?, left?,
right?)`: `left = left || top`, `right = right || left`; no validation. -/
def OldA1Notation.construct (sheetName : Option String)
    (top bottom left right : Option Nat) : A1Notation :=
  ⟨sheetName, jsOr left top, top, jsOr right left, bottom⟩

/-- The older `A1Notation.parse`: `new A1Notation()` (all fields
`undefined`), then assign `sheetName` if truthy and the decoded bounds of
each truthy fragment. -/
def OldA1Notation.parse (s : String) : PRes A1Notation :=
  match OldParser.parse s.data with
  | .err e => .err e
  | .diverge => .diverge
  | .ok ir =>
    match resolveCell ir.cell1 with
    | .error e => .err e
    | .ok c1 =>
      match resolveCell ir.cell2 with
      | .error e => .err e
      | .ok c2 =>
        .ok ⟨if truthyS ir.sheetName then ir.sheetName else none,
             c1.col, c1.row, c2.col, c2.row⟩

/-! ### Proof-auxiliary arithmetic (not part of the source: weights used to
state the base-26 and decimal lemmas) -/

/-- 26 to the power of the number of letters `toBase26Go fuel n` emits
(same recursion pattern as `toBase26Go`). -/
def w26 : Nat → Nat → Nat
  | 0, _ => 1
  | _ + 1, 0 => 1
  | fuel + 1, m + 1 => 26 * w26 fuel (m / 26)

/-- Powers of 26, for bounding `fromBase26Aux`. -/
def pw26 : Nat → Nat
  | 0 => 1
  | k + 1 => 26 * pw26 k

/-- The largest value of a letter run of length `k` under `fromBase26`
(`mx26 3 = 18278`). -/
def mx26 : Nat → Nat
  | 0 => 0
  | k + 1 => 26 * pw26 k + mx26 k

/-- 10 to the power of the number of digits `natDigitsGo fuel n` emits
(same recursion pattern as `natDigitsGo`). -/
def w10 : Nat → Nat → Nat
  | 0, _ => 10
  | fuel + 1, n => if n < 10 then 10 else 10 * w10 fuel (n / 10)

/-! ### Sanity checks of the embedding against the repository's test data -/

example : A1Notation.parse "Sheet1!A1:B2" =
    .ok ⟨some "Sheet1", some 1, some 1, some 2, some 2⟩ := rfl

example : A1Notation.parse "Sheet1!A:A" =
    .ok ⟨some "Sheet1", some 1, none, some 1, none⟩ := rfl

example : A1Notation.parse "Sheet1!1:2" =
    .ok ⟨some "Sheet1", none, some 1, none, some 2⟩ := rfl

example : A1Notation.parse "Sheet1!A5:A" =
    .ok ⟨some "Sheet1", some 1, some 5, some 1, none⟩ := rfl

example : A1Notation.parse "Sheet1" = .ok ⟨some "Sheet1", none, none, none, none⟩ := rfl

example : A1Notation.parse "'My Custom Sheet'!A:A" =
    .ok ⟨some "My Custom Sheet", some 1, none, some 1, none⟩ := rfl

example : A1Notation.parse "ZZZ1" =
    .ok ⟨none, some 18278, some 1, some 18278, some 1⟩ := rfl

example : A1Notation.parse "AAAA1" = .ok ⟨some "AAAA1", none, none, none, none⟩ := rfl

example : A1Notation.parse "'A1'" = .ok ⟨some "A1", none, none, none, none⟩ := rfl

example : A1Notation.toString ⟨some "Sheet1", some 1, some 1, some 2, some 2⟩ =
    "Sheet1!A1:B2" := rfl

example : A1Notation.toString ⟨some "My Custom Sheet", some 1, none, some 1, none⟩ =
    "'My Custom Sheet'!A:A" := rfl

example : A1Notation.toString ⟨some "A1", none, none, none, none⟩ = "'A1'" := rfl

example : A1Notation.toString ⟨none, some 18278, some 1, some 18278, some 1⟩ =
    "ZZZ1" := rfl

example : A1Notation.parse "'Sheet1'!A1:B2:C3" = .err "expected EOF, but got :" := rfl

example : A1Notation.parse "AAAA1:ZZZ1" = .err "invalid cell name: AAAA1" := rfl

example : OldA1Notation.parse "'Sheet1'!A1" =
    .ok ⟨some "Sheet1", some 1, some 1, none, none⟩ := rfl

example : A1Notation.parse "'Sheet1'!A1" =
    .ok ⟨some "Sheet1", some 1, some 1, some 1, some 1⟩ := rfl

/-! ### Basic facts about characters and the fuel loop -/

/-- `Char.ofNat` below the surrogate range keeps its code point. -/
theorem char_ofNat_toNat (n : Nat) (h : n < 55296) : (Char.ofNat n).toNat = n := by
  unfold Char.ofNat
  rw [dif_pos (Or.inl h)]
  rfl

/-- Order on characters is order on code points. -/
theorem char_le_iff (a b : Char) : a ≤ b ↔ a.toNat ≤ b.toNat := by
  constructor <;> intro h <;> exact h

/-- Equality of characters is equality of code points. -/
theorem char_eq_iff (a b : Char) : a = b ↔ a.toNat = b.toNat := by
  constructor
  · intro h; rw [h]
  · intro h
    exact Char.le_antisymm ((char_le_iff a b).2 h.le) ((char_le_iff b a).2 h.ge)

/-- At end of input the quoted-name loop never returns, whatever the fuel:
each step appends the sentinel's characters and stays at end of input. -/
theorem parseQuotedNameLoopFuel_nil (fuel : Nat) :
    ∀ name, parseQuotedNameLoopFuel fuel [] name = none := by
  induction fuel with
  | zero => intro name; rfl
  | succ f ih => intro name; exact ih (name ++ ['E', 'O', 'F'])

/-- On a quote-free remainder the quoted-name loop never returns, whatever
the fuel: it consumes every character and then spins at end of input. -/
theorem parseQuotedNameLoopFuel_no_quote (s : List Char)
    (h : s.all (fun c => c ≠ '\'') = true) :
    ∀ name fuel, parseQuotedNameLoopFuel fuel s name = none := by
  induction s with
  | nil => intro name fuel; exact parseQuotedNameLoopFuel_nil fuel name
  | cons c cs ih =>
    intro name fuel
    simp only [List.all_cons, Bool.and_eq_true, decide_eq_true_eq] at h
    match fuel with
    | 0 => rfl
    | f + 1 =>
      have hc : ¬(c = '\'') := h.1
      simp only [parseQuotedNameLoopFuel, if_neg hc]
      exact ih (by simp only [List.all_eq_true] at h ⊢; intro x hx; exact h.2 x hx) _ f

/-! ### C2: constructor validation -/

/-- C2 (refuted; the claim matches the repository's own tests): the `A1Notation`
constructor is claimed to raise a construction error on an empty sheet name, a
zero bound, or a `right`/`bottom` without its counterpart.  The constructor in
the source performs no validation at all: on each of the seven argument tuples
that the repository's test file asserts must throw, and on a bare `right`
and a bare `bottom`, it returns a range. -/
theorem C2_constructor_never_throws :
    A1Notation.construct (some "") none none none none
      = ⟨some "", none, none, none, none⟩ ∧
    A1Notation.construct none (some 0) none none none
      = ⟨none, some 0, none, some 0, none⟩ ∧
    A1Notation.construct none (some 1) (some 0) none none
      = ⟨none, some 1, some 0, some 1, some 0⟩ ∧
    A1Notation.construct none (some 1) (some 1) (some 0) none
      = ⟨none, some 1, some 1, some 0, none⟩ ∧
    A1Notation.construct none (some 1) (some 1) (some 1) (some 0)
      = ⟨none, some 1, some 1, some 1, some 0⟩ ∧
    A1Notation.construct none (some 2) none (some 1) none
      = ⟨none, some 2, none, some 1, none⟩ ∧
    A1Notation.construct none none (some 2) none (some 1)
      = ⟨none, none, some 2, none, some 1⟩ ∧
    A1Notation.construct none none none (some 1) none
      = ⟨none, none, none, some 1, none⟩ ∧
    A1Notation.construct none none none none (some 1)
      = ⟨none, none, none, none, some 1⟩ :=
  ⟨rfl, rfl, rfl, rfl, rfl, rfl, rfl, rfl, rfl⟩

/-! ### C3: quoted sheet names -/

/-- C3 (refuted for the unterminated case): on input that opens a quote and
reaches end of input without an unescaped closing quote, the scanning loop
never returns for any number of steps (first conjunct, shown on `'abc`,
whose remainder after the opening quote is `abc`), so `parse` does not
terminate (second conjunct, the denotational embedding).  The other two
behaviors in the claim do hold: a quoted empty name is the error
`invalid sheet name`, and a doubled quote is consumed as one literal
quote. -/
theorem C3_quoted_name :
    (∀ fuel, parseQuotedNameLoopFuel fuel ['a', 'b', 'c'] [] = none) ∧
    A1Notation.parse "'abc" = .diverge ∧
    A1Notation.parse "''!A1:B2" = .err "invalid sheet name" ∧
    A1Notation.parse "'a''b'" = .ok ⟨some "a'b", none, none, none, none⟩ :=
  ⟨fun fuel => parseQuotedNameLoopFuel_no_quote _ (by decide) _ fuel, rfl, rfl, rfl⟩

/-! ### C5: constructor defaulting -/

/-- C5: when `right` and `bottom` are both omitted the constructor defaults
them to `left` and `top`; when at least one of them is supplied, all five
arguments are stored unchanged (the omitted counterpart stays absent). -/
theorem C5_construct_defaulting :
    (∀ sn l t, A1Notation.construct sn l t none none = ⟨sn, l, t, l, t⟩) ∧
    (∀ sn l t r b, ¬(r = none ∧ b = none) →
      A1Notation.construct sn l t r b = ⟨sn, l, t, r, b⟩) := by
  constructor
  · intro sn l t
    simp [A1Notation.construct]
  · intro sn l t r b h
    simp [A1Notation.construct, h]

/-- Witness for C5 at concrete arguments. -/
theorem C5_construct_defaulting_witness :
    A1Notation.construct (some "S") (some 3) (some 2) none none
      = ⟨some "S", some 3, some 2, some 3, some 2⟩ ∧
    A1Notation.construct (some "S") (some 3) (some 2) (some 4) none
      = ⟨some "S", some 3, some 2, some 4, none⟩ :=
  ⟨C5_construct_defaulting.1 _ _ _,
   C5_construct_defaulting.2 (some "S") (some 3) (some 2) (some 4) none (by simp)⟩

/-! ### C6: a concrete construction and formatting scenario -/

/-- C6: constructing with sheet name "Sheet1", left 3, top 2 (right and
bottom omitted) and formatting yields exactly "Sheet1!C2". -/
theorem C6_sheet1_c2 :
    (A1Notation.construct (some "Sheet1") (some 3) (some 2) none none).toString
      = "Sheet1!C2" := rfl

/-! ### C7: concrete invalid inputs -/

/-- C7: each of the six listed inputs makes `parse` throw a parse error
(the exact message of each is recorded). -/
theorem C7_invalid_inputs :
    A1Notation.parse "" = .err "invalid cell name" ∧
    A1Notation.parse "Sheet1!" = .err "invalid cell name" ∧
    A1Notation.parse "A1:B2:C3" = .err "expected EOF, but got :" ∧
    A1Notation.parse "!A1:B2" = .err "unexpected character: !" ∧
    A1Notation.parse "''!A1:B2" = .err "invalid sheet name" ∧
    A1Notation.parse "Sheet1?" = .err "expected \"!\" or \":\", but got ?" :=
  ⟨rfl, rfl, rfl, rfl, rfl, rfl⟩

/-! ### C8: case insensitivity of column letters, verbatim sheet names -/

/-- One decoding step treats the uppercase and lowercase forms of the same
letter alike: both contribute `n * 26 + k + 1`. -/
theorem fromBase26Aux_case_insensitive (n k : Nat) (rest : List Char) (h : k < 26) :
    fromBase26Aux n (Char.ofNat (65 + k) :: rest)
      = fromBase26Aux n (Char.ofNat (97 + k) :: rest) := by
  have h1 : (Char.ofNat (65 + k)).toNat = 65 + k := char_ofNat_toNat _ (by omega)
  have h2 : (Char.ofNat (97 + k)).toNat = 97 + k := char_ofNat_toNat _ (by omega)
  simp only [fromBase26Aux, h1, h2]
  rw [if_pos (⟨by omega, by omega⟩ : 65 ≤ 65 + k ∧ 65 + k ≤ 90)]
  rw [if_neg (by omega : ¬(65 ≤ 97 + k ∧ 97 + k ≤ 90))]
  rw [if_pos (⟨by omega, by omega⟩ : 97 ≤ 97 + k ∧ 97 + k ≤ 122)]
  congr 1
  omega

/-- C8: `parse "a1"` and `parse "A1"` agree in every field; column-letter
decoding is case-insensitive in general (each step maps the uppercase and
lowercase forms of a letter to the same value); and parsed sheet names keep
their letters verbatim (shown on a quoted and a bare mixed-case name). -/
theorem C8_case_insensitivity :
    A1Notation.parse "a1" = A1Notation.parse "A1" ∧
    (∀ n k rest, k < 26 →
      fromBase26Aux n (Char.ofNat (65 + k) :: rest)
        = fromBase26Aux n (Char.ofNat (97 + k) :: rest)) ∧
    A1Notation.parse "'AbC dEf'" = .ok ⟨some "AbC dEf", none, none, none, none⟩ ∧
    A1Notation.parse "ShEeTx" = .ok ⟨some "ShEeTx", none, none, none, none⟩ :=
  ⟨rfl, fun n k rest h => fromBase26Aux_case_insensitive n k rest h, rfl, rfl⟩

/-- Witness for C8's general conjunct at a concrete letter (`k = 1`, the
letter B/b). -/
theorem C8_case_insensitivity_witness :
    fromBase26Aux 0 (Char.ofNat 66 :: []) = fromBase26Aux 0 (Char.ofNat 98 :: []) :=
  C8_case_insensitivity.2.1 0 1 [] (by omega)

/-! ### C4: the column codec is inverse on 1..18278 -/

/-- The loop body of `toBase26` does nothing at zero. -/
theorem toBase26Go_zero (fuel : Nat) (acc : List Char) : toBase26Go fuel 0 acc = acc := by
  cases fuel <;> rfl

/-- Arithmetic of one decode step against one encode step. -/
theorem base26_step (a W q r : Nat) (h : r < 26) :
    (a * W + q) * 26 + (65 + r - 65) + 1 = a * (26 * W) + (26 * q + r + 1) := by
  have h65 : 65 + r - 65 = r := by omega
  rw [h65]
  ring

/-- Decoding what `toBase26Go` prepends: with accumulator `a`, the digits
of `n` contribute `a * w26 fuel n + n`. -/
theorem fromBase26Aux_toBase26Go (fuel : Nat) :
    ∀ n acc a, n ≤ fuel →
      fromBase26Aux a (toBase26Go fuel n acc)
        = fromBase26Aux (a * w26 fuel n + n) acc := by
  induction fuel with
  | zero =>
    intro n acc a hn
    have h0 : n = 0 := Nat.le_zero.mp hn
    subst h0
    simp [toBase26Go, w26]
  | succ f ih =>
    intro n acc a hn
    match n with
    | 0 => simp [toBase26Go_zero, w26]
    | m + 1 =>
      have hch : (Char.ofNat (65 + m % 26)).toNat = 65 + m % 26 :=
        char_ofNat_toNat _ (by omega)
      show fromBase26Aux a (toBase26Go f (m / 26) (Char.ofNat (65 + m % 26) :: acc)) = _
      rw [ih (m / 26) _ a (le_trans (Nat.div_le_self m 26) (by omega))]
      show fromBase26Aux _ (Char.ofNat (65 + m % 26) :: acc) = _
      simp only [fromBase26Aux, hch]
      rw [if_pos (⟨by omega, by omega⟩ : 65 ≤ 65 + m % 26 ∧ 65 + m % 26 ≤ 90)]
      show fromBase26Aux _ acc = fromBase26Aux (a * (26 * w26 f (m / 26)) + (m + 1)) acc
      congr 1
      rw [base26_step a (w26 f (m / 26)) (m / 26) (m % 26) (Nat.mod_lt _ (by omega))]
      congr 1
      omega

/-- `fromBase26` decodes `toBase26` back to the original number. -/
theorem fromBase26_toBase26 (n : Nat) : fromBase26 (toBase26 n).data = .ok n := by
  show fromBase26Aux 0 (toBase26Go n n []) = .ok n
  rw [fromBase26Aux_toBase26Go n n [] 0 le_rfl]
  simp [fromBase26Aux]

/-- Every character `toBase26Go` emits (on top of an uppercase accumulator)
is an uppercase letter. -/
theorem toBase26Go_all_upper (fuel : Nat) :
    ∀ n acc, acc.all (fun c => decide (65 ≤ c.toNat ∧ c.toNat ≤ 90)) = true →
      (toBase26Go fuel n acc).all (fun c => decide (65 ≤ c.toNat ∧ c.toNat ≤ 90)) = true := by
  induction fuel with
  | zero => intro n acc h; exact h
  | succ f ih =>
    intro n acc h
    match n with
    | 0 => exact h
    | m + 1 =>
      show (toBase26Go f (m / 26) (Char.ofNat (65 + m % 26) :: acc)).all _ = true
      apply ih
      rw [List.all_cons, Bool.and_eq_true]
      refine ⟨?_, h⟩
      simp only [char_ofNat_toNat _ (by omega : 65 + m % 26 < 55296), decide_eq_true_eq]
      omega

/-- C4: for every `n` in `[1, 18278]`, decoding the encoding of `n` gives
back `n`, and the encoding consists only of uppercase letters A–Z. -/
theorem C4_codec_inverse (n : Nat) (h1 : 1 ≤ n) (h2 : n ≤ 18278) :
    fromBase26 (toBase26 n).data = .ok n ∧
    (toBase26 n).data.all (fun c => decide ('A' ≤ c ∧ c ≤ 'Z')) = true := by
  refine ⟨fromBase26_toBase26 n, ?_⟩
  have h := toBase26Go_all_upper n n [] rfl
  rw [List.all_eq_true] at h ⊢
  intro c hc
  have hcc := h c hc
  rw [decide_eq_true_eq] at hcc ⊢
  exact ⟨(char_le_iff 'A' c).2 hcc.1, (char_le_iff c 'Z').2 hcc.2⟩

/-- Witness for C4 at the largest three-letter column, 18278 = "ZZZ". -/
theorem C4_codec_inverse_witness :
    fromBase26 (toBase26 18278).data = .ok 18278 ∧
    (toBase26 18278).data.all (fun c => decide ('A' ≤ c ∧ c ≤ 'Z')) = true :=
  C4_codec_inverse 18278 (by decide) (by decide)

/-! ### String and scanning utilities -/

/-- Strings are equal when their code-point lists are. -/
theorem string_ext (s t : String) (h : s.data = t.data) : s = t := by
  cases s; cases t; exact congrArg String.mk h

/-- A string differs from `""` exactly when its code-point list is non-empty. -/
theorem string_ne_empty_iff (s : String) : s ≠ "" ↔ s.data ≠ [] := by
  constructor
  · intro h hc
    exact h (string_ext s "" hc)
  · intro h hc
    rw [hc] at h
    exact h rfl

/-- `takeWhile` passes over a prefix that wholly satisfies the predicate. -/
theorem takeWhile_append_all (p : Char → Bool) (xs ys : List Char)
    (h : xs.all p = true) : (xs ++ ys).takeWhile p = xs ++ ys.takeWhile p := by
  induction xs with
  | nil => rfl
  | cons c cs ih =>
    simp only [List.all_cons, Bool.and_eq_true] at h
    simp only [List.cons_append, List.takeWhile_cons, if_pos h.1, ih h.2]

/-- `dropWhile` skips a prefix that wholly satisfies the predicate. -/
theorem dropWhile_append_all (p : Char → Bool) (xs ys : List Char)
    (h : xs.all p = true) : (xs ++ ys).dropWhile p = ys.dropWhile p := by
  induction xs with
  | nil => rfl
  | cons c cs ih =>
    simp only [List.all_cons, Bool.and_eq_true] at h
    simp only [List.cons_append, List.dropWhile_cons, if_pos h.1, ih h.2]

/-- The first element `dropWhile` keeps fails the predicate. -/
theorem dropWhile_head_false (p : Char → Bool) (l : List Char) (c : Char)
    (cs : List Char) (h : l.dropWhile p = c :: cs) : p c = false := by
  induction l with
  | nil => cases h
  | cons a l ih =>
    by_cases hp : p a = true
    · rw [List.dropWhile_cons, if_pos hp] at h
      exact ih h
    · rw [List.dropWhile_cons, if_neg hp] at h
      cases h
      simpa using hp

/-- Alphanumeric characters are not quotes, bangs or colons. -/
theorem alnum_facts (c : Char) (h : isAlnumCh c = true) :
    c ≠ '\'' ∧ c ≠ '!' ∧ c ≠ ':' := by
  simp only [isAlnumCh, isLetterCh, isDigitCh, Bool.or_eq_true, decide_eq_true_eq] at h
  refine ⟨fun hc => ?_, fun hc => ?_, fun hc => ?_⟩
  · rw [char_eq_iff, show ('\'').toNat = 39 from rfl] at hc
    omega
  · rw [char_eq_iff, show ('!').toNat = 33 from rfl] at hc
    omega
  · rw [char_eq_iff, show (':').toNat = 58 from rfl] at hc
    omega

/-- `parseName` on a well-formed alphanumeric run followed by a
non-alphanumeric remainder returns exactly that run. -/
theorem parseName_append (xs rest : List Char) (h1 : xs ≠ [])
    (h2 : xs.all isAlnumCh = true)
    (h3 : ∀ c cs, rest = c :: cs → isAlnumCh c = false) :
    parseName (xs ++ rest) = .ok (String.mk xs, rest) := by
  have ht : (xs ++ rest).takeWhile isAlnumCh = xs := by
    rw [takeWhile_append_all _ _ _ h2]
    cases rest with
    | nil => simp
    | cons c cs =>
      rw [List.takeWhile_cons, if_neg (by simp [h3 c cs rfl])]
      simp
  have hd : (xs ++ rest).dropWhile isAlnumCh = rest := by
    rw [dropWhile_append_all _ _ _ h2]
    cases rest with
    | nil => rfl
    | cons c cs =>
      rw [List.dropWhile_cons, if_neg (by simp [h3 c cs rfl])]
  simp only [parseName, ht, hd]
  rw [if_neg (by simpa using h1)]

/-- Inversion of a successful `parseName`: the name is the non-empty
maximal alphanumeric prefix and the remainder starts non-alphanumeric. -/
theorem parseName_ok_inv (s : List Char) (name : String) (rest : List Char)
    (h : parseName s = .ok (name, rest)) :
    name.data ≠ [] ∧ name.data.all isAlnumCh = true ∧ s = name.data ++ rest ∧
    (∀ c cs, rest = c :: cs → isAlnumCh c = false) := by
  simp only [parseName] at h
  by_cases he : (s.takeWhile isAlnumCh).isEmpty = true
  · rw [if_pos he] at h
    cases h
  · rw [if_neg he] at h
    cases h
    refine ⟨by simpa using he, List.all_takeWhile .., ?_, ?_⟩
    · show s = String.data (String.mk (s.takeWhile isAlnumCh)) ++ s.dropWhile isAlnumCh
      rw [show String.data (String.mk (s.takeWhile isAlnumCh)) = s.takeWhile isAlnumCh from rfl]
      rw [List.takeWhile_append_dropWhile]
    · intro c cs hc
      exact dropWhile_head_false _ s c cs hc

/-! ### The quoted-name loop on escaped content -/

/-- Doubling is the identity on quote-free text. -/
theorem doubleQuotes_self (w : List Char) (h : w.all (fun c => decide (c ≠ '\'')) = true) :
    doubleQuotes w = w := by
  induction w with
  | nil => rfl
  | cons c cs ih =>
    simp only [List.all_cons, Bool.and_eq_true, decide_eq_true_eq] at h
    simp only [doubleQuotes, if_neg h.1, ih (by simpa using h.2)]

/-- The scanning loop undoes quote doubling: on `doubleQuotes w` followed by
a closing quote and a remainder not starting with a quote, it accumulates
exactly `w` and stops after the closing quote. -/
theorem parseQuotedNameLoop_doubleQuotes (w : List Char) :
    ∀ acc rest, (∀ c cs, rest = c :: cs → c ≠ '\'') →
      parseQuotedNameLoop (doubleQuotes w ++ '\'' :: rest) acc = .ok (acc ++ w, rest) := by
  induction w with
  | nil =>
    intro acc rest hr
    show parseQuotedNameLoop ('\'' :: rest) acc = _
    cases rest with
    | nil => simp [parseQuotedNameLoop]
    | cons c2 cs =>
      have hc2 : ¬(c2 = '\'') := hr c2 cs rfl
      simp [parseQuotedNameLoop, hc2]
  | cons c w ih =>
    intro acc rest hr
    by_cases hc : c = '\''
    · subst hc
      show parseQuotedNameLoop (doubleQuotes ('\'' :: w) ++ '\'' :: rest) acc = _
      rw [show doubleQuotes ('\'' :: w) = '\'' :: '\'' :: doubleQuotes w from by
        simp [doubleQuotes]]
      show parseQuotedNameLoop ('\'' :: '\'' :: (doubleQuotes w ++ '\'' :: rest)) acc = _
      rw [show parseQuotedNameLoop ('\'' :: '\'' :: (doubleQuotes w ++ '\'' :: rest)) acc
          = parseQuotedNameLoop (doubleQuotes w ++ '\'' :: rest) (acc ++ ['\'']) from by
        simp [parseQuotedNameLoop]]
      rw [ih (acc ++ ['\'']) rest hr]
      simp
    · show parseQuotedNameLoop (doubleQuotes (c :: w) ++ '\'' :: rest) acc = _
      rw [show doubleQuotes (c :: w) = c :: doubleQuotes w from by simp [doubleQuotes, hc]]
      show parseQuotedNameLoop (c :: (doubleQuotes w ++ '\'' :: rest)) acc = _
      rw [show parseQuotedNameLoop (c :: (doubleQuotes w ++ '\'' :: rest)) acc
          = parseQuotedNameLoop (doubleQuotes w ++ '\'' :: rest) (acc ++ [c]) from by
        rw [parseQuotedNameLoop.eq_def]
        dsimp only
        rw [if_neg hc]]
      rw [ih (acc ++ [c]) rest hr]
      simp

/-- `parseQuotedName` on an escaped non-empty name: recovers the name and
the remainder after the closing quote. -/
theorem parseQuotedName_escape (w : List Char) (rest : List Char) (hw : w ≠ [])
    (hr : ∀ c cs, rest = c :: cs → c ≠ '\'') :
    parseQuotedName ('\'' :: (doubleQuotes w ++ '\'' :: rest)) = .ok (String.mk w, rest) := by
  rw [parseQuotedName.eq_def]
  dsimp only
  rw [if_pos rfl]
  rw [parseQuotedNameLoop_doubleQuotes w [] rest hr]
  dsimp only
  rw [List.nil_append]
  rw [if_neg (by simpa using hw)]

/-! ### The decimal codec -/

/-- Arithmetic of one decimal decode step against one encode step. -/
theorem dec_step (a W q r : Nat) : (a * W + q) * 10 + r = a * (10 * W) + (10 * q + r) := by
  ring

/-- Folding the decoder over `natDigitsGo fuel n` with accumulator `a`
yields `a * w10 fuel n + n`. -/
theorem parseDec_natDigitsGo (fuel : Nat) :
    ∀ n a, n ≤ fuel →
      List.foldl (fun a c => a * 10 + (c.toNat - 48)) a (natDigitsGo fuel n)
        = a * w10 fuel n + n := by
  induction fuel with
  | zero =>
    intro n a hn
    have h0 : n = 0 := Nat.le_zero.mp hn
    subst h0
    show a * 10 + ((digitChar10 0).toNat - 48) = a * 10 + 0
    rw [show (digitChar10 0).toNat = 48 from char_ofNat_toNat 48 (by omega)]
  | succ f ih =>
    intro n a hn
    by_cases h : n < 10
    · simp only [natDigitsGo, if_pos h, w10, List.foldl_cons, List.foldl_nil]
      rw [show (digitChar10 n).toNat = 48 + n from char_ofNat_toNat _ (by omega)]
      omega
    · simp only [natDigitsGo, if_neg h, w10]
      rw [List.foldl_append]
      rw [ih (n / 10) a (by omega)]
      simp only [List.foldl_cons, List.foldl_nil]
      rw [show (digitChar10 (n % 10)).toNat = 48 + n % 10 from char_ofNat_toNat _ (by omega)]
      rw [show 48 + n % 10 - 48 = n % 10 from by omega]
      rw [dec_step a (w10 f (n / 10)) (n / 10) (n % 10)]
      congr 1
      omega

/-- `parseInt` undoes the decimal rendering. -/
theorem parseDec_natDigits (n : Nat) : parseDec (natDigits n) = n := by
  show List.foldl _ 0 (natDigitsGo n n) = n
  rw [parseDec_natDigitsGo n n 0 le_rfl]
  simp

/-- Every character of a decimal rendering is a digit. -/
theorem natDigitsGo_all_digit (fuel : Nat) :
    ∀ n, n ≤ fuel → (natDigitsGo fuel n).all isDigitCh = true := by
  induction fuel with
  | zero =>
    intro n hn
    have h0 : n = 0 := Nat.le_zero.mp hn
    subst h0
    show (isDigitCh (digitChar10 0) && true) = true
    simp [isDigitCh, show (digitChar10 0).toNat = 48 from char_ofNat_toNat 48 (by omega)]
  | succ f ih =>
    intro n hn
    by_cases h : n < 10
    · simp only [natDigitsGo, if_pos h, List.all_cons, List.all_nil, Bool.and_true]
      simp [isDigitCh, show (digitChar10 n).toNat = 48 + n from char_ofNat_toNat _ (by omega)]
      omega
    · simp only [natDigitsGo, if_neg h, List.all_append, Bool.and_eq_true]
      refine ⟨ih (n / 10) (by omega), ?_⟩
      simp only [List.all_cons, List.all_nil, Bool.and_true]
      simp [isDigitCh, show (digitChar10 (n % 10)).toNat = 48 + n % 10 from
        char_ofNat_toNat _ (by omega)]
      omega

/-- A decimal rendering is never empty. -/
theorem natDigitsGo_ne_nil (fuel n : Nat) : natDigitsGo fuel n ≠ [] := by
  cases fuel with
  | zero => simp [natDigitsGo]
  | succ f =>
    by_cases h : n < 10
    · simp [natDigitsGo, if_pos h]
    · simp [natDigitsGo, if_neg h]

/-! ### Bounds on the column codec -/

/-- The decoder's accumulator never decreases. -/
theorem fromBase26Aux_ge (s : List Char) :
    ∀ a v, fromBase26Aux a s = .ok v → a ≤ v := by
  induction s with
  | nil =>
    intro a v h
    cases h
    exact le_rfl
  | cons c cs ih =>
    intro a v h
    rw [fromBase26Aux.eq_def] at h
    dsimp only at h
    by_cases h1 : 65 ≤ c.toNat ∧ c.toNat ≤ 90
    · rw [if_pos h1] at h
      exact le_trans (by omega) (ih _ _ h)
    · rw [if_neg h1] at h
      by_cases h2 : 97 ≤ c.toNat ∧ c.toNat ≤ 122
      · rw [if_pos h2] at h
        exact le_trans (by omega) (ih _ _ h)
      · rw [if_neg h2] at h
        cases h

/-- A decoded non-empty run is at least 1. -/
theorem fromBase26Aux_pos (c : Char) (cs : List Char) (a v : Nat)
    (h : fromBase26Aux a (c :: cs) = .ok v) : 1 ≤ v := by
  rw [fromBase26Aux.eq_def] at h
  dsimp only at h
  by_cases h1 : 65 ≤ c.toNat ∧ c.toNat ≤ 90
  · rw [if_pos h1] at h
    exact le_trans (by omega) (fromBase26Aux_ge cs _ _ h)
  · rw [if_neg h1] at h
    by_cases h2 : 97 ≤ c.toNat ∧ c.toNat ≤ 122
    · rw [if_pos h2] at h
      exact le_trans (by omega) (fromBase26Aux_ge cs _ _ h)
    · rw [if_neg h2] at h
      cases h

/-- Upper bound of the decoder in terms of the run length. -/
theorem fromBase26Aux_le (s : List Char) :
    ∀ a v, fromBase26Aux a s = .ok v → v ≤ a * pw26 s.length + mx26 s.length := by
  induction s with
  | nil =>
    intro a v h
    cases h
    simp [pw26, mx26]
  | cons c cs ih =>
    intro a v h
    rw [fromBase26Aux.eq_def] at h
    dsimp only at h
    have key : ∀ b, b ≤ 26 * a + 26 → fromBase26Aux b cs = .ok v →
        v ≤ a * pw26 (c :: cs).length + mx26 (c :: cs).length := by
      intro b hb hok
      have hv := ih b v hok
      calc v ≤ b * pw26 cs.length + mx26 cs.length := hv
        _ ≤ (26 * a + 26) * pw26 cs.length + mx26 cs.length := by
            exact Nat.add_le_add_right (Nat.mul_le_mul_right _ hb) _
        _ = a * (26 * pw26 cs.length) + (26 * pw26 cs.length + mx26 cs.length) := by ring
        _ = a * pw26 (c :: cs).length + mx26 (c :: cs).length := by
            simp [pw26, mx26, List.length_cons]
    by_cases h1 : 65 ≤ c.toNat ∧ c.toNat ≤ 90
    · rw [if_pos h1] at h
      exact key _ (by omega) h
    · rw [if_neg h1] at h
      by_cases h2 : 97 ≤ c.toNat ∧ c.toNat ≤ 122
      · rw [if_pos h2] at h
        exact key _ (by omega) h
      · rw [if_neg h2] at h
        cases h

/-- `mx26` at lengths up to three stays within 18278. -/
theorem mx26_le_three (k : Nat) (h : k ≤ 3) : mx26 k ≤ 18278 := by
  interval_cases k <;> decide

/-- A successful decode of a run of at most three characters lies in
`[1, 18278]` when the run is non-empty. -/
theorem fromBase26_bounds (s : List Char) (v : Nat) (hlen : s.length ≤ 3)
    (hne : s ≠ []) (h : fromBase26 s = .ok v) : 1 ≤ v ∧ v ≤ 18278 := by
  constructor
  · match s, hne with
    | c :: cs, _ => exact fromBase26Aux_pos c cs 0 v h
  · have := fromBase26Aux_le s 0 v h
    simp only [Nat.zero_mul, Nat.zero_add] at this
    exact le_trans this (mx26_le_three _ hlen)

/-- All-letter runs decode successfully. -/
theorem fromBase26Aux_isOk (s : List Char) (h : s.all isLetterCh = true) :
    ∀ a, ∃ v, fromBase26Aux a s = .ok v := by
  induction s with
  | nil => intro a; exact ⟨a, rfl⟩
  | cons c cs ih =>
    intro a
    simp only [List.all_cons, Bool.and_eq_true] at h
    have hc := h.1
    rw [isLetterCh, Bool.or_eq_true, decide_eq_true_eq, decide_eq_true_eq] at hc
    rw [fromBase26Aux.eq_def]
    dsimp only
    rcases hc with hc | hc
    · rw [if_pos hc]
      exact ih h.2 _
    · rw [if_neg (by omega), if_pos hc]
      exact ih h.2 _

/-! ### Lengths of the encoder output -/

/-- The encoder never shortens its accumulator. -/
theorem toBase26Go_length_ge (fuel : Nat) :
    ∀ n acc, acc.length ≤ (toBase26Go fuel n acc).length := by
  induction fuel with
  | zero => intro n acc; exact le_rfl
  | succ f ih =>
    intro n acc
    match n with
    | 0 => exact le_rfl
    | m + 1 =>
      calc acc.length ≤ (Char.ofNat (65 + m % 26) :: acc).length := by simp
        _ ≤ _ := ih (m / 26) _

/-- The encoding of a positive number is non-empty. -/
theorem toBase26_ne_nil (n : Nat) (h : 1 ≤ n) : (toBase26 n).data ≠ [] := by
  show toBase26Go n n [] ≠ []
  match n, h with
  | m + 1, _ =>
    intro hcon
    have hge := toBase26Go_length_ge m (m / 26) [Char.ofNat (65 + m % 26)]
    rw [show toBase26Go (m + 1) (m + 1) [] =
        toBase26Go m (m / 26) [Char.ofNat (65 + m % 26)] from rfl] at hcon
    rw [hcon] at hge
    simp at hge

/-- One letter suffices for values up to 26. -/
theorem toBase26Go_len1 (fuel : Nat) :
    ∀ n acc, n ≤ fuel → n ≤ 26 → (toBase26Go fuel n acc).length ≤ 1 + acc.length := by
  intro n acc hf h
  match fuel, n with
  | 0, 0 => simp [toBase26Go]
  | 0, _ + 1 => omega
  | f + 1, 0 => simp [toBase26Go_zero]
  | f + 1, m + 1 =>
    have h0 : m / 26 = 0 := Nat.div_eq_of_lt (by omega)
    show (toBase26Go f (m / 26) (Char.ofNat (65 + m % 26) :: acc)).length ≤ 1 + acc.length
    rw [h0, toBase26Go_zero]
    simp
    omega

/-- Two letters suffice for values up to 702. -/
theorem toBase26Go_len2 (fuel : Nat) :
    ∀ n acc, n ≤ fuel → n ≤ 702 → (toBase26Go fuel n acc).length ≤ 2 + acc.length := by
  intro n acc hf h
  match fuel, n with
  | 0, 0 => simp [toBase26Go]
  | 0, _ + 1 => omega
  | f + 1, 0 => simp [toBase26Go_zero]
  | f + 1, m + 1 =>
    show (toBase26Go f (m / 26) (Char.ofNat (65 + m % 26) :: acc)).length ≤ 2 + acc.length
    calc (toBase26Go f (m / 26) (Char.ofNat (65 + m % 26) :: acc)).length
        ≤ 1 + (Char.ofNat (65 + m % 26) :: acc).length :=
          toBase26Go_len1 f (m / 26) _ (by omega) (by omega)
      _ = 2 + acc.length := by simp; omega

/-- Three letters suffice for values up to 18278. -/
theorem toBase26Go_len3 (fuel : Nat) :
    ∀ n acc, n ≤ fuel → n ≤ 18278 → (toBase26Go fuel n acc).length ≤ 3 + acc.length := by
  intro n acc hf h
  match fuel, n with
  | 0, 0 => simp [toBase26Go]
  | 0, _ + 1 => omega
  | f + 1, 0 => simp [toBase26Go_zero]
  | f + 1, m + 1 =>
    show (toBase26Go f (m / 26) (Char.ofNat (65 + m % 26) :: acc)).length ≤ 3 + acc.length
    calc (toBase26Go f (m / 26) (Char.ofNat (65 + m % 26) :: acc)).length
        ≤ 2 + (Char.ofNat (65 + m % 26) :: acc).length :=
          toBase26Go_len2 f (m / 26) _ (by omega) (by omega)
      _ = 3 + acc.length := by simp; omega

/-- Letters of the encoding of a column in range, as a character-class fact:
every character is an uppercase letter, hence alphanumeric and not a digit,
not a quote, not `!`, not `:`. -/
theorem toBase26_chars (n : Nat) :
    (toBase26 n).data.all (fun c => decide (65 ≤ c.toNat ∧ c.toNat ≤ 90)) = true :=
  toBase26Go_all_upper n n [] rfl


/-! ### Inversion: what a successful parse can produce -/

/-- Facts about a successful fragment decode: a non-empty fragment yields
at least one bound, and any column bound lies in `[1, 18278]`. -/
theorem parseCell_ok_facts (f : String) (cell : Cell) (h : parseCell f = .ok cell) :
    (f.data ≠ [] → ¬(cell.col = none ∧ cell.row = none)) ∧
    (∀ n, cell.col = some n → 1 ≤ n ∧ n ≤ 18278) := by
  rw [parseCell.eq_def] at h
  dsimp only at h
  by_cases hg : (f.data.takeWhile isLetterCh).length ≤ 3 ∧
      (f.data.dropWhile isLetterCh).all isDigitCh = true
  · rw [if_pos hg] at h
    by_cases hl : (f.data.takeWhile isLetterCh).isEmpty = true
    · rw [if_pos hl] at h
      dsimp only at h
      cases h
      constructor
      · intro hne hcon
        have hdata : f.data.dropWhile isLetterCh = f.data := by
          have hsplit := List.takeWhile_append_dropWhile (p := isLetterCh) (l := f.data)
          rw [show f.data.takeWhile isLetterCh = [] from by simpa using hl] at hsplit
          simpa using hsplit
        have hre : ¬((f.data.dropWhile isLetterCh).isEmpty = true) := by
          rw [hdata]
          simpa using hne
        rw [if_neg hre] at hcon
        exact (by simpa using hcon.2 : False)
      · intro n hn
        cases hn
    · rw [if_neg hl] at h
      obtain ⟨v, hv⟩ := fromBase26Aux_isOk (f.data.takeWhile isLetterCh)
        (List.all_takeWhile ..) 0
      rw [show fromBase26 (f.data.takeWhile isLetterCh) = .ok v from hv] at h
      dsimp only [Except.map] at h
      cases h
      constructor
      · intro _ hcon
        exact (by simpa using hcon.1 : False)
      · intro n hn
        cases hn
        exact fromBase26_bounds _ _ hg.1 (by simpa using hl) hv
  · rw [if_neg hg] at h
    cases h

/-- A successful `parseQuotedName` yields a non-empty name. -/
theorem parseQuotedName_ok_ne (s : List Char) (nm : String) (rest : List Char)
    (h : parseQuotedName s = .ok (nm, rest)) : nm.data ≠ [] := by
  rw [parseQuotedName.eq_def] at h
  cases s with
  | nil => cases h
  | cons c cs =>
    dsimp only at h
    by_cases hc : c = '\''
    · rw [if_pos hc] at h
      cases hq : parseQuotedNameLoop cs [] with
      | ok pr =>
        obtain ⟨name, r2⟩ := pr
        rw [hq] at h
        dsimp only at h
        by_cases he : name.isEmpty = true
        · rw [if_pos he] at h
          cases h
        · rw [if_neg he] at h
          cases h
          simpa using he
      | err e =>
        rw [hq] at h
        cases h
      | diverge =>
        rw [hq] at h
        cases h
    · rw [if_neg hc] at h
      cases h

/-- Shape of a successful bare-branch parse: the sheet name (when present)
is non-empty, and either both cells are absent with a sheet name present,
or both cells are present and non-empty. -/
theorem Parser.parseCell_shape (s : List Char) (ir : InterimResult)
    (h : Parser.parseCell s = .ok ir) :
    (∀ nm, ir.sheetName = some nm → nm.data ≠ []) ∧
    ((ir.cell1 = none ∧ ir.cell2 = none ∧ ir.sheetName ≠ none) ∨
     (∃ c1 c2, ir.cell1 = some c1 ∧ ir.cell2 = some c2 ∧ c1.data ≠ [] ∧ c2.data ≠ [])) := by
  rw [Parser.parseCell.eq_def] at h
  cases hp : parseName s with
  | error e =>
    rw [hp] at h
    cases h
  | ok pr =>
    obtain ⟨name, rest⟩ := pr
    rw [hp] at h
    dsimp only at h
    obtain ⟨hn_ne, _, _, _⟩ := parseName_ok_inv _ _ _ hp
    cases rest with
    | nil =>
      dsimp only at h
      by_cases hcell : reCellTest name = true
      · rw [if_pos hcell] at h
        cases h
        refine ⟨?_, Or.inr ⟨name, name, rfl, rfl, hn_ne, hn_ne⟩⟩
        intro nm hnm
        cases hnm
      · rw [if_neg hcell] at h
        cases h
        refine ⟨?_, Or.inl ⟨rfl, rfl, by simp⟩⟩
        intro nm hnm
        cases hnm
        exact hn_ne
    | cons c rest2 =>
      dsimp only at h
      by_cases hc : c = '!'
      · rw [if_pos hc] at h
        cases hp2 : parseName rest2 with
        | error e =>
          rw [hp2] at h
          cases h
        | ok pr2 =>
          obtain ⟨cell1, rest3⟩ := pr2
          rw [hp2] at h
          dsimp only at h
          obtain ⟨hc1_ne, _, _, _⟩ := parseName_ok_inv _ _ _ hp2
          cases rest3 with
          | nil =>
            dsimp only at h
            cases h
            refine ⟨?_, Or.inr ⟨cell1, cell1, rfl, rfl, hc1_ne, hc1_ne⟩⟩
            intro nm hnm
            cases hnm
            exact hn_ne
          | cons c2 rest4 =>
            dsimp only at h
            by_cases hc2 : c2 = ':'
            · rw [if_pos hc2] at h
              cases hp3 : parseName rest4 with
              | error e =>
                rw [hp3] at h
                cases h
              | ok pr3 =>
                obtain ⟨cell2, rest5⟩ := pr3
                rw [hp3] at h
                dsimp only at h
                obtain ⟨hc2_ne, _, _, _⟩ := parseName_ok_inv _ _ _ hp3
                cases rest5 with
                | nil =>
                  dsimp only at h
                  cases h
                  refine ⟨?_, Or.inr ⟨cell1, cell2, rfl, rfl, hc1_ne, hc2_ne⟩⟩
                  intro nm hnm
                  cases hnm
                  exact hn_ne
                | cons c3 r =>
                  dsimp only at h
                  cases h
            · rw [if_neg hc2] at h
              cases h
      · by_cases hc' : c = ':'
        · rw [if_neg hc, if_pos hc'] at h
          cases hp2 : parseName rest2 with
          | error e =>
            rw [hp2] at h
            cases h
          | ok pr2 =>
            obtain ⟨cell2, rest3⟩ := pr2
            rw [hp2] at h
            dsimp only at h
            obtain ⟨hc2_ne, _, _, _⟩ := parseName_ok_inv _ _ _ hp2
            cases rest3 with
            | nil =>
              dsimp only at h
              cases h
              refine ⟨?_, Or.inr ⟨name, cell2, rfl, rfl, hn_ne, hc2_ne⟩⟩
              intro nm hnm
              cases hnm
            | cons c2 r =>
              dsimp only at h
              cases h
        · rw [if_neg hc, if_neg hc'] at h
          cases h

/-- Shape of a successful quoted-branch parse. -/
theorem Parser.parseSheetNameAndCell_shape (s : List Char) (ir : InterimResult)
    (h : Parser.parseSheetNameAndCell s = .ok ir) :
    (∀ nm, ir.sheetName = some nm → nm.data ≠ []) ∧
    ((ir.cell1 = none ∧ ir.cell2 = none ∧ ir.sheetName ≠ none) ∨
     (∃ c1 c2, ir.cell1 = some c1 ∧ ir.cell2 = some c2 ∧ c1.data ≠ [] ∧ c2.data ≠ [])) := by
  rw [Parser.parseSheetNameAndCell.eq_def] at h
  cases hq : parseQuotedName s with
  | err e =>
    rw [hq] at h
    cases h
  | diverge =>
    rw [hq] at h
    cases h
  | ok pr =>
    obtain ⟨sheetName, rest⟩ := pr
    rw [hq] at h
    dsimp only at h
    have hs_ne := parseQuotedName_ok_ne _ _ _ hq
    cases rest with
    | nil =>
      dsimp only at h
      cases h
      refine ⟨?_, Or.inl ⟨rfl, rfl, by simp⟩⟩
      intro nm hnm
      cases hnm
      exact hs_ne
    | cons c rest2 =>
      dsimp only at h
      by_cases hc : c = '!'
      · rw [if_pos hc] at h
        cases hp2 : parseName rest2 with
        | error e =>
          rw [hp2] at h
          cases h
        | ok pr2 =>
          obtain ⟨cell1, rest3⟩ := pr2
          rw [hp2] at h
          dsimp only at h
          obtain ⟨hc1_ne, _, _, _⟩ := parseName_ok_inv _ _ _ hp2
          cases rest3 with
          | nil =>
            dsimp only at h
            cases h
            refine ⟨?_, Or.inr ⟨cell1, cell1, rfl, rfl, hc1_ne, hc1_ne⟩⟩
            intro nm hnm
            cases hnm
            exact hs_ne
          | cons c2 rest4 =>
            dsimp only at h
            by_cases hc2 : c2 = ':'
            · rw [if_pos hc2] at h
              cases hp3 : parseName rest4 with
              | error e =>
                rw [hp3] at h
                cases h
              | ok pr3 =>
                obtain ⟨cell2, rest5⟩ := pr3
                rw [hp3] at h
                dsimp only at h
                obtain ⟨hc2_ne, _, _, _⟩ := parseName_ok_inv _ _ _ hp3
                cases rest5 with
                | nil =>
                  dsimp only at h
                  cases h
                  refine ⟨?_, Or.inr ⟨cell1, cell2, rfl, rfl, hc1_ne, hc2_ne⟩⟩
                  intro nm hnm
                  cases hnm
                  exact hs_ne
                | cons c3 r =>
                  dsimp only at h
                  cases h
            · rw [if_neg hc2] at h
              cases h
      · rw [if_neg hc] at h
        cases h

/-- Shape of any successful parse. -/
theorem Parser.parse_shape (s : List Char) (ir : InterimResult)
    (h : Parser.parse s = .ok ir) :
    (∀ nm, ir.sheetName = some nm → nm.data ≠ []) ∧
    ((ir.cell1 = none ∧ ir.cell2 = none ∧ ir.sheetName ≠ none) ∨
     (∃ c1 c2, ir.cell1 = some c1 ∧ ir.cell2 = some c2 ∧ c1.data ≠ [] ∧ c2.data ≠ [])) := by
  rw [Parser.parse.eq_def] at h
  cases s with
  | nil => exact Parser.parseCell_shape [] ir h
  | cons c cs =>
    dsimp only at h
    by_cases hc : c = '\''
    · rw [if_pos hc] at h
      exact Parser.parseSheetNameAndCell_shape _ _ h
    · rw [if_neg hc] at h
      by_cases ha : isAlnumCh c = true
      · rw [if_pos ha] at h
        exact Parser.parseCell_shape _ _ h
      · rw [if_neg ha] at h
        cases h

/-- `resolveCell` on an absent fragment. -/
theorem resolveCell_none : resolveCell none = .ok ⟨none, none⟩ := rfl

/-- `resolveCell` on a present non-empty fragment runs the decoder. -/
theorem resolveCell_some (c : String) (h : c.data ≠ []) :
    resolveCell (some c) = parseCell c := by
  rw [resolveCell]
  rw [if_pos (by simpa [truthyS] using (string_ne_empty_iff c).2 h)]
  rfl

/-- Shape of every range a successful `A1Notation.parse` produces: any
sheet name is non-empty; the bounds are either all absent (with a sheet
name present) or each fragment side carries at least one bound; and every
column bound lies in `[1, 18278]`. -/
theorem a1_parse_shape (s : String) (r : A1Notation)
    (h : A1Notation.parse s = .ok r) :
    (∀ nm, r.sheetName = some nm → nm.data ≠ []) ∧
    ((r.left = none ∧ r.top = none ∧ r.right = none ∧ r.bottom = none ∧ r.sheetName ≠ none) ∨
     (¬(r.left = none ∧ r.top = none) ∧ ¬(r.right = none ∧ r.bottom = none))) ∧
    (∀ n, r.left = some n → 1 ≤ n ∧ n ≤ 18278) ∧
    (∀ n, r.right = some n → 1 ≤ n ∧ n ≤ 18278) := by
  rw [A1Notation.parse.eq_def] at h
  cases hp : Parser.parse s.data with
  | err e =>
    rw [hp] at h
    cases h
  | diverge =>
    rw [hp] at h
    cases h
  | ok ir =>
    rw [hp] at h
    dsimp only at h
    obtain ⟨hsheet, hcells⟩ := Parser.parse_shape _ _ hp
    rcases hcells with ⟨h1, h2, h3⟩ | ⟨c1, c2, hc1, hc2, hne1, hne2⟩
    · rw [h1, h2, resolveCell_none] at h
      dsimp only at h
      rw [show A1Notation.construct ir.sheetName none none none none
          = ⟨ir.sheetName, none, none, none, none⟩ from by
        simp [A1Notation.construct]] at h
      cases h
      refine ⟨hsheet, Or.inl ⟨rfl, rfl, rfl, rfl, h3⟩, ?_, ?_⟩
      · intro n hn
        cases hn
      · intro n hn
        cases hn
    · rw [hc1, hc2, resolveCell_some c1 hne1, resolveCell_some c2 hne2] at h
      cases hq1 : parseCell c1 with
      | error e =>
        rw [hq1] at h
        cases h
      | ok cl1 =>
        rw [hq1] at h
        dsimp only at h
        cases hq2 : parseCell c2 with
        | error e =>
          rw [hq2] at h
          cases h
        | ok cl2 =>
          rw [hq2] at h
          dsimp only at h
          obtain ⟨hnb1, hcol1⟩ := parseCell_ok_facts c1 cl1 hq1
          obtain ⟨hnb2, hcol2⟩ := parseCell_ok_facts c2 cl2 hq2
          have hnb1' := hnb1 hne1
          have hnb2' := hnb2 hne2
          rw [show A1Notation.construct ir.sheetName cl1.col cl1.row cl2.col cl2.row
              = ⟨ir.sheetName, cl1.col, cl1.row, cl2.col, cl2.row⟩ from by
            simp only [A1Notation.construct, if_neg hnb2']] at h
          cases h
          exact ⟨hsheet, Or.inr ⟨hnb1', hnb2'⟩, hcol1, hcol2⟩

/-! ### C10: column bounds of every parsed range -/

/-- C10: on every string `parse` accepts, any column bound it sets (left
or right) lies between 1 and 18278 inclusive. -/
theorem C10_column_bounds (s : String) (r : A1Notation)
    (h : A1Notation.parse s = .ok r) :
    (∀ n, r.left = some n → 1 ≤ n ∧ n ≤ 18278) ∧
    (∀ n, r.right = some n → 1 ≤ n ∧ n ≤ 18278) :=
  ⟨(a1_parse_shape s r h).2.2.1, (a1_parse_shape s r h).2.2.2⟩

/-- Witness for C10 on the rightmost three-letter column `ZZZ1`. -/
theorem C10_column_bounds_witness : 1 ≤ 18278 ∧ 18278 ≤ 18278 :=
  (C10_column_bounds "ZZZ1" ⟨none, some 18278, some 1, some 18278, some 1⟩ rfl).1 18278 rfl

/-! ### Character-class conversions for rendered text -/

/-- Uppercase runs are letter runs. -/
theorem upper_all_letter (l : List Char)
    (h : l.all (fun c => decide (65 ≤ c.toNat ∧ c.toNat ≤ 90)) = true) :
    l.all isLetterCh = true := by
  rw [List.all_eq_true] at h ⊢
  intro c hc
  have := h c hc
  rw [decide_eq_true_eq] at this
  simp only [isLetterCh, Bool.or_eq_true, decide_eq_true_eq]
  exact Or.inl this

/-- Letter runs are alphanumeric. -/
theorem letter_all_alnum (l : List Char) (h : l.all isLetterCh = true) :
    l.all isAlnumCh = true := by
  rw [List.all_eq_true] at h ⊢
  intro c hc
  simp only [isAlnumCh, Bool.or_eq_true]
  exact Or.inl (h c hc)

/-- Digit runs are alphanumeric. -/
theorem digit_all_alnum (l : List Char) (h : l.all isDigitCh = true) :
    l.all isAlnumCh = true := by
  rw [List.all_eq_true] at h ⊢
  intro c hc
  simp only [isAlnumCh, Bool.or_eq_true]
  exact Or.inr (h c hc)

/-- A digit is not a letter. -/
theorem digit_not_letter (c : Char) (h : isDigitCh c = true) : isLetterCh c = false := by
  rw [isDigitCh, decide_eq_true_eq] at h
  simp only [isLetterCh, Bool.or_eq_false_iff, decide_eq_false_iff_not]
  omega

/-- Packaged facts about the letters of an in-range column. -/
theorem toBase26_data_facts (n : Nat) (h1 : 1 ≤ n) (h2 : n ≤ 18278) :
    (toBase26 n).data ≠ [] ∧ (toBase26 n).data.all isLetterCh = true ∧
    (toBase26 n).data.all isAlnumCh = true ∧ (toBase26 n).data.length ≤ 3 := by
  have hup := toBase26_chars n
  have hlet := upper_all_letter _ hup
  refine ⟨toBase26_ne_nil n h1, hlet, letter_all_alnum _ hlet, ?_⟩
  have := toBase26Go_len3 n n [] le_rfl h2
  simpa using this

/-- Packaged facts about the digits of a row. -/
theorem natDigits_facts (m : Nat) :
    natDigits m ≠ [] ∧ (natDigits m).all isDigitCh = true ∧
    (natDigits m).all isAlnumCh = true := by
  have hd := natDigitsGo_all_digit m m le_rfl
  exact ⟨natDigitsGo_ne_nil m m, hd, digit_all_alnum _ hd⟩

/-! ### The rendered cell text and its re-parse -/

/-- Data of the rendered text of a full bound pair. -/
theorem cellText_some_some (n m : Nat) (hn : 1 ≤ n) (hm : 1 ≤ m) :
    (cellText (some n) (some m)).data = (toBase26 n).data ++ natDigits m := by
  rw [cellText]
  rw [if_pos (by simp [truthyN]; omega : truthyN (some n) = true)]
  rw [if_pos (by simp [truthyN]; omega : truthyN (some m) = true)]
  rw [String.data_append]
  rfl

/-- Data of the rendered text of a column-only bound. -/
theorem cellText_some_none (n : Nat) (hn : 1 ≤ n) :
    (cellText (some n) none).data = (toBase26 n).data := by
  rw [cellText]
  rw [if_pos (by simp [truthyN]; omega : truthyN (some n) = true)]
  rw [show truthyN none = false from rfl]
  simp only [Bool.false_eq_true, if_false]
  rw [String.data_append]
  simp

/-- Data of the rendered text of a row-only bound. -/
theorem cellText_none_some (m : Nat) (hm : 1 ≤ m) :
    (cellText none (some m)).data = natDigits m := by
  rw [cellText]
  rw [show truthyN none = false from rfl]
  simp only [Bool.false_eq_true, if_false]
  rw [if_pos (by simp [truthyN]; omega : truthyN (some m) = true)]
  rw [String.data_append]
  rfl

/-- The rendered cell text is non-empty alphanumeric and decodes back to
exactly the bound pair it came from. -/
theorem parseCell_cellText (col row : Option Nat)
    (hcol : ∀ n, col = some n → 1 ≤ n ∧ n ≤ 18278)
    (hrow : ∀ m, row = some m → 1 ≤ m)
    (hne : ¬(col = none ∧ row = none)) :
    parseCell (cellText col row) = .ok ⟨col, row⟩ ∧
    (cellText col row).data ≠ [] ∧ (cellText col row).data.all isAlnumCh = true := by
  match col, row with
  | none, none => exact absurd ⟨rfl, rfl⟩ hne
  | some n, none =>
    obtain ⟨hn1, hn2⟩ := hcol n rfl
    obtain ⟨hLne, hLlet, hLal, hLlen⟩ := toBase26_data_facts n hn1 hn2
    have hdata := cellText_some_none n hn1
    refine ⟨?_, by rw [hdata]; exact hLne, by rw [hdata]; exact hLal⟩
    rw [parseCell.eq_def, hdata]
    dsimp only
    have ht : (toBase26 n).data.takeWhile isLetterCh = (toBase26 n).data := by
      have := takeWhile_append_all isLetterCh (toBase26 n).data [] hLlet
      simpa using this
    have hd : (toBase26 n).data.dropWhile isLetterCh = [] := by
      have := dropWhile_append_all isLetterCh (toBase26 n).data [] hLlet
      simpa using this
    rw [ht, hd]
    rw [if_pos ⟨hLlen, rfl⟩]
    rw [if_neg (by simpa using hLne)]
    rw [show fromBase26 (toBase26 n).data = .ok n from fromBase26_toBase26 n]
    rfl
  | none, some m =>
    have hm1 := hrow m rfl
    obtain ⟨hDne, hDdig, hDal⟩ := natDigits_facts m
    have hdata := cellText_none_some m hm1
    refine ⟨?_, by rw [hdata]; exact hDne, by rw [hdata]; exact hDal⟩
    rw [parseCell.eq_def, hdata]
    dsimp only
    have ht : (natDigits m).takeWhile isLetterCh = [] := by
      match hD : natDigits m, hDne with
      | c :: cs, _ =>
        rw [List.takeWhile_cons, if_neg]
        rw [digit_not_letter c (by rw [List.all_eq_true] at hDdig; exact hDdig c (by rw [hD]; simp))]
        simp
    have hd : (natDigits m).dropWhile isLetterCh = natDigits m := by
      match hD : natDigits m, hDne with
      | c :: cs, _ =>
        rw [List.dropWhile_cons, if_neg]
        rw [digit_not_letter c (by rw [List.all_eq_true] at hDdig; exact hDdig c (by rw [hD]; simp))]
        simp
    rw [ht, hd]
    rw [if_pos ⟨by simp, hDdig⟩]
    rw [if_pos (by simp)]
    rw [if_neg (by simpa using hDne)]
    rw [show parseDec (natDigits m) = m from parseDec_natDigits m]
  | some n, some m =>
    obtain ⟨hn1, hn2⟩ := hcol n rfl
    have hm1 := hrow m rfl
    obtain ⟨hLne, hLlet, hLal, hLlen⟩ := toBase26_data_facts n hn1 hn2
    obtain ⟨hDne, hDdig, hDal⟩ := natDigits_facts m
    have hdata := cellText_some_some n m hn1 hm1
    have hdhead : ∀ c cs, natDigits m = c :: cs → isLetterCh c = false := by
      intro c cs hD
      exact digit_not_letter c (by rw [List.all_eq_true] at hDdig; exact hDdig c (by rw [hD]; simp))
    have ht : ((toBase26 n).data ++ natDigits m).takeWhile isLetterCh = (toBase26 n).data := by
      rw [takeWhile_append_all isLetterCh _ _ hLlet]
      match hD : natDigits m, hDne with
      | c :: cs, _ =>
        rw [List.takeWhile_cons, if_neg (by rw [hdhead c cs hD]; simp)]
        simp
    have hd : ((toBase26 n).data ++ natDigits m).dropWhile isLetterCh = natDigits m := by
      rw [dropWhile_append_all isLetterCh _ _ hLlet]
      match hD : natDigits m, hDne with
      | c :: cs, _ =>
        rw [List.dropWhile_cons, if_neg (by rw [hdhead c cs hD]; simp)]
    refine ⟨?_, by rw [hdata]; simp [hLne], by rw [hdata, List.all_append]; simp [hLal, hDal]⟩
    rw [parseCell.eq_def, hdata]
    dsimp only
    rw [ht, hd]
    rw [if_pos ⟨hLlen, hDdig⟩]
    rw [if_neg (by simpa using hLne)]
    rw [show fromBase26 (toBase26 n).data = .ok n from fromBase26_toBase26 n]
    rw [if_neg (by simpa using hDne)]
    rw [show parseDec (natDigits m) = m from parseDec_natDigits m]
    rfl

/-- A full bound pair renders to a cell-like string (`reCell` matches). -/
theorem reCellTest_cellText (n m : Nat) (hn1 : 1 ≤ n) (hn2 : n ≤ 18278) (hm : 1 ≤ m) :
    reCellTest (cellText (some n) (some m)) = true := by
  obtain ⟨hLne, hLlet, hLal, hLlen⟩ := toBase26_data_facts n hn1 hn2
  obtain ⟨hDne, hDdig, hDal⟩ := natDigits_facts m
  have hdata := cellText_some_some n m hn1 hm
  have hdhead : ∀ c cs, natDigits m = c :: cs → isLetterCh c = false := by
    intro c cs hD
    exact digit_not_letter c (by rw [List.all_eq_true] at hDdig; exact hDdig c (by rw [hD]; simp))
  rw [reCellTest]
  rw [hdata]
  rw [takeWhile_append_all isLetterCh _ _ hLlet, dropWhile_append_all isLetterCh _ _ hLlet]
  have ht2 : (natDigits m).takeWhile isLetterCh = [] := by
    match hD : natDigits m, hDne with
    | c :: cs, _ =>
      rw [List.takeWhile_cons, if_neg (by rw [hdhead c cs hD]; simp)]
  have hd2 : (natDigits m).dropWhile isLetterCh = natDigits m := by
    match hD : natDigits m, hDne with
    | c :: cs, _ =>
      rw [List.dropWhile_cons, if_neg (by rw [hdhead c cs hD]; simp)]
  rw [ht2, hd2]
  simp only [Bool.and_eq_true, decide_eq_true_eq]
  refine ⟨⟨by simpa using hLlen, by simpa using hDne⟩, hDdig⟩

/-! ### Where the parser lands on each rendered output shape -/

/-- Quoted branch, sheet only. -/
theorem PSNC_only (s : List Char) (nm : String)
    (hq : parseQuotedName s = .ok (nm, [])) :
    Parser.parseSheetNameAndCell s = .ok ⟨some nm, none, none⟩ := by
  rw [Parser.parseSheetNameAndCell.eq_def, hq]

/-- Quoted branch, one cell after the bang. -/
theorem PSNC_single (s : List Char) (nm : String) (ys : List Char)
    (hq : parseQuotedName s = .ok (nm, '!' :: ys))
    (hyne : ys ≠ []) (hyal : ys.all isAlnumCh = true) :
    Parser.parseSheetNameAndCell s
      = .ok ⟨some nm, some (String.mk ys), some (String.mk ys)⟩ := by
  rw [Parser.parseSheetNameAndCell.eq_def, hq]
  dsimp only
  rw [if_pos rfl]
  rw [show parseName ys = .ok (String.mk ys, []) from by
    simpa using parseName_append ys [] hyne hyal (fun c cs h => by cases h)]

/-- Quoted branch, two cells after the bang. -/
theorem PSNC_pair (s : List Char) (nm : String) (ys zs : List Char)
    (hq : parseQuotedName s = .ok (nm, '!' :: (ys ++ ':' :: zs)))
    (hyne : ys ≠ []) (hyal : ys.all isAlnumCh = true)
    (hzne : zs ≠ []) (hzal : zs.all isAlnumCh = true) :
    Parser.parseSheetNameAndCell s
      = .ok ⟨some nm, some (String.mk ys), some (String.mk zs)⟩ := by
  rw [Parser.parseSheetNameAndCell.eq_def, hq]
  dsimp only
  rw [if_pos rfl]
  rw [parseName_append ys (':' :: zs) hyne hyal
    (fun c cs h => by cases h; decide)]
  dsimp only
  rw [if_pos rfl]
  rw [show parseName zs = .ok (String.mk zs, []) from by
    simpa using parseName_append zs [] hzne hzal (fun c cs h => by cases h)]

/-- Bare branch: a single cell-like run at end of input. -/
theorem parseCell_land_single (xs : List Char) (hne : xs ≠ [])
    (hal : xs.all isAlnumCh = true) (hcell : reCellTest (String.mk xs) = true) :
    Parser.parseCell xs = .ok ⟨none, some (String.mk xs), some (String.mk xs)⟩ := by
  rw [Parser.parseCell.eq_def]
  rw [show parseName xs = .ok (String.mk xs, []) from by
    simpa using parseName_append xs [] hne hal (fun c cs h => by cases h)]
  dsimp only
  rw [if_pos hcell]

/-- Bare branch: a non-cell-like run at end of input is a sheet name. -/
theorem parseCell_land_sheet (xs : List Char) (hne : xs ≠ [])
    (hal : xs.all isAlnumCh = true) (hcell : reCellTest (String.mk xs) = false) :
    Parser.parseCell xs = .ok ⟨some (String.mk xs), none, none⟩ := by
  rw [Parser.parseCell.eq_def]
  rw [show parseName xs = .ok (String.mk xs, []) from by
    simpa using parseName_append xs [] hne hal (fun c cs h => by cases h)]
  dsimp only
  rw [if_neg (by simp [hcell])]

/-- Bare branch: two cells around a colon. -/
theorem parseCell_land_pair (xs ys : List Char) (hxne : xs ≠ [])
    (hxal : xs.all isAlnumCh = true) (hyne : ys ≠ []) (hyal : ys.all isAlnumCh = true) :
    Parser.parseCell (xs ++ ':' :: ys)
      = .ok ⟨none, some (String.mk xs), some (String.mk ys)⟩ := by
  rw [Parser.parseCell.eq_def]
  rw [parseName_append xs (':' :: ys) hxne hxal (fun c cs h => by cases h; decide)]
  dsimp only
  rw [if_neg (by decide : ¬(':' = '!')), if_pos rfl]
  rw [show parseName ys = .ok (String.mk ys, []) from by
    simpa using parseName_append ys [] hyne hyal (fun c cs h => by cases h)]

/-- Bare branch: sheet name, bang, one cell. -/
theorem parseCell_land_sheet_single (xs ys : List Char) (hxne : xs ≠ [])
    (hxal : xs.all isAlnumCh = true) (hyne : ys ≠ []) (hyal : ys.all isAlnumCh = true) :
    Parser.parseCell (xs ++ '!' :: ys)
      = .ok ⟨some (String.mk xs), some (String.mk ys), some (String.mk ys)⟩ := by
  rw [Parser.parseCell.eq_def]
  rw [parseName_append xs ('!' :: ys) hxne hxal (fun c cs h => by cases h; decide)]
  dsimp only
  rw [if_pos rfl]
  rw [show parseName ys = .ok (String.mk ys, []) from by
    simpa using parseName_append ys [] hyne hyal (fun c cs h => by cases h)]

/-- Bare branch: sheet name, bang, two cells. -/
theorem parseCell_land_sheet_pair (xs ys zs : List Char) (hxne : xs ≠ [])
    (hxal : xs.all isAlnumCh = true) (hyne : ys ≠ []) (hyal : ys.all isAlnumCh = true)
    (hzne : zs ≠ []) (hzal : zs.all isAlnumCh = true) :
    Parser.parseCell (xs ++ '!' :: (ys ++ ':' :: zs))
      = .ok ⟨some (String.mk xs), some (String.mk ys), some (String.mk zs)⟩ := by
  rw [Parser.parseCell.eq_def]
  rw [parseName_append xs ('!' :: (ys ++ ':' :: zs)) hxne hxal
    (fun c cs h => by cases h; decide)]
  dsimp only
  rw [if_pos rfl]
  rw [parseName_append ys (':' :: zs) hyne hyal (fun c cs h => by cases h; decide)]
  dsimp only
  rw [if_pos rfl]
  rw [show parseName zs = .ok (String.mk zs, []) from by
    simpa using parseName_append zs [] hzne hzal (fun c cs h => by cases h)]

/-- Top dispatch on a quoted input. -/
theorem parse_land_quote (rest : List Char) :
    Parser.parse ('\'' :: rest) = Parser.parseSheetNameAndCell ('\'' :: rest) := by
  rw [Parser.parse.eq_def]
  dsimp only
  rw [if_pos rfl]

/-- Top dispatch on an input starting with an alphanumeric character. -/
theorem parse_land_alnum (c : Char) (rest : List Char) (h : isAlnumCh c = true) :
    Parser.parse (c :: rest) = Parser.parseCell (c :: rest) := by
  rw [Parser.parse.eq_def]
  dsimp only
  rw [if_neg (by simpa using (alnum_facts c h).1), if_pos h]

/-- Top dispatch applied to a non-empty alphanumeric run plus remainder. -/
theorem parse_land_alnum_append (xs rest : List Char) (hne : xs ≠ [])
    (hal : xs.all isAlnumCh = true) :
    Parser.parse (xs ++ rest) = Parser.parseCell (xs ++ rest) := by
  match xs, hne with
  | c :: cs, _ =>
    have hc : isAlnumCh c = true := by
      rw [List.all_eq_true] at hal
      exact hal c (by simp)
    exact parse_land_alnum c (cs ++ rest) hc

/-! ### Escaped sheet names re-parse to themselves -/

/-- Structure-eta: rebuilding a string from its data gives it back. -/
theorem string_mk_data (s : String) : String.mk s.data = s := rfl

/-- A cell-like sheet name is wholly alphanumeric. -/
theorem reCellTest_all_alnum (nm : String) (h : reCellTest nm = true) :
    nm.data.all isAlnumCh = true := by
  rw [reCellTest] at h
  simp only [Bool.and_eq_true, decide_eq_true_eq] at h
  have hsplit := List.takeWhile_append_dropWhile (p := isLetterCh) (l := nm.data)
  rw [← hsplit, List.all_append]
  simp [letter_all_alnum _ (List.all_takeWhile ..), digit_all_alnum _ h.2]

/-- Alphanumeric runs contain no quote. -/
theorem alnum_all_no_quote (l : List Char) (h : l.all isAlnumCh = true) :
    l.all (fun c => decide (c ≠ '\'')) = true := by
  rw [List.all_eq_true] at h ⊢
  intro c hc
  simpa using (alnum_facts c (h c hc)).1

/-- The two data shapes `escapeSheetName` can produce: a quoted body with
doubled quotes, or the bare name itself (then not cell-like and wholly
alphanumeric). -/
theorem escape_data_cases (nm : String) (hnm : nm.data ≠ []) :
    (escapeSheetName nm).data = '\'' :: (doubleQuotes nm.data ++ ['\'']) ∨
    ((escapeSheetName nm).data = nm.data ∧ reCellTest nm = false ∧
      nm.data.all isAlnumCh = true) := by
  rw [escapeSheetName]
  by_cases h1 : reCellTest nm = true
  · rw [if_pos h1]
    left
    have hal : nm.data.all isAlnumCh = true := reCellTest_all_alnum nm h1
    rw [doubleQuotes_self _ (alnum_all_no_quote _ hal)]
    rw [String.data_append, String.data_append]
    simp
  · rw [if_neg h1]
    by_cases h2 : (!nm.data.isEmpty && nm.data.all isAlnumCh) = true
    · rw [if_pos h2]
      right
      refine ⟨rfl, by simpa using h1, ?_⟩
      simp only [Bool.and_eq_true] at h2
      exact h2.2
    · rw [if_neg h2]
      left
      rw [String.data_append, String.data_append]
      simp

/-- The quoted-name rule recovers a doubled-quote body exactly. -/
theorem parse_quoted_escape (nm : String) (hnm : nm.data ≠ []) (suffix : List Char)
    (hsuf : ∀ c cs, suffix = c :: cs → c ≠ '\'') :
    parseQuotedName ('\'' :: (doubleQuotes nm.data ++ '\'' :: suffix)) = .ok (nm, suffix) :=
  parseQuotedName_escape nm.data suffix hnm hsuf

/-- Parsing an escaped sheet name alone yields a sheet-only result. -/
theorem parse_escape_only (nm : String) (hnm : nm.data ≠ []) :
    Parser.parse (escapeSheetName nm).data = .ok ⟨some nm, none, none⟩ := by
  rcases escape_data_cases nm hnm with h | ⟨h, hcell, hal⟩
  · rw [h]
    rw [show (doubleQuotes nm.data ++ ['\'']) = doubleQuotes nm.data ++ '\'' :: [] from rfl]
    rw [parse_land_quote]
    exact PSNC_only _ _ (parse_quoted_escape nm hnm [] (fun c cs hx => by cases hx))
  · rw [h]
    have hland := parse_land_alnum_append nm.data [] hnm hal
    rw [show Parser.parse nm.data = Parser.parseCell nm.data from by simpa using hland]
    rw [parseCell_land_sheet nm.data hnm hal (by rw [string_mk_data]; simpa using hcell)]

/-- Parsing an escaped sheet name, a bang and one cell run. -/
theorem parse_escape_single (nm : String) (hnm : nm.data ≠ []) (ys : List Char)
    (hyne : ys ≠ []) (hyal : ys.all isAlnumCh = true) :
    Parser.parse ((escapeSheetName nm).data ++ '!' :: ys)
      = .ok ⟨some nm, some (String.mk ys), some (String.mk ys)⟩ := by
  rcases escape_data_cases nm hnm with h | ⟨h, hcell, hal⟩
  · rw [h]
    rw [show ('\'' :: (doubleQuotes nm.data ++ ['\''])) ++ '!' :: ys
        = '\'' :: (doubleQuotes nm.data ++ '\'' :: '!' :: ys) from by simp]
    rw [parse_land_quote]
    exact PSNC_single _ _ _
      (parse_quoted_escape nm hnm ('!' :: ys) (fun c cs hx => by cases hx; decide))
      hyne hyal
  · rw [h]
    rw [parse_land_alnum_append nm.data ('!' :: ys) hnm hal]
    rw [parseCell_land_sheet_single nm.data ys hnm hal hyne hyal]

/-- Parsing an escaped sheet name, a bang and two cell runs. -/
theorem parse_escape_pair (nm : String) (hnm : nm.data ≠ []) (ys zs : List Char)
    (hyne : ys ≠ []) (hyal : ys.all isAlnumCh = true)
    (hzne : zs ≠ []) (hzal : zs.all isAlnumCh = true) :
    Parser.parse ((escapeSheetName nm).data ++ '!' :: (ys ++ ':' :: zs))
      = .ok ⟨some nm, some (String.mk ys), some (String.mk zs)⟩ := by
  rcases escape_data_cases nm hnm with h | ⟨h, hcell, hal⟩
  · rw [h]
    rw [show ('\'' :: (doubleQuotes nm.data ++ ['\''])) ++ '!' :: (ys ++ ':' :: zs)
        = '\'' :: (doubleQuotes nm.data ++ '\'' :: '!' :: (ys ++ ':' :: zs)) from by simp]
    rw [parse_land_quote]
    exact PSNC_pair _ _ _ _
      (parse_quoted_escape nm hnm ('!' :: (ys ++ ':' :: zs))
        (fun c cs hx => by cases hx; decide))
      hyne hyal hzne hzal
  · rw [h]
    rw [parse_land_alnum_append nm.data ('!' :: (ys ++ ':' :: zs)) hnm hal]
    rw [parseCell_land_sheet_pair nm.data ys zs hnm hal hyne hyal hzne hzal]

/-! ### From parser results to `A1Notation.parse` results -/

/-- Gluing: a parser result with two cells runs the decoder on both and
builds the range without defaulting. -/
theorem A1_parse_cells (out : String) (sn : Option String) (c1 c2 : String)
    (hp : Parser.parse out.data = .ok ⟨sn, some c1, some c2⟩)
    (h1 : c1.data ≠ []) (h2 : c2.data ≠ [])
    (cl1 cl2 : Cell) (hq1 : parseCell c1 = .ok cl1) (hq2 : parseCell c2 = .ok cl2)
    (hnb2 : ¬(cl2.col = none ∧ cl2.row = none)) :
    A1Notation.parse out = .ok ⟨sn, cl1.col, cl1.row, cl2.col, cl2.row⟩ := by
  rw [A1Notation.parse.eq_def, hp]
  dsimp only
  rw [resolveCell_some c1 h1, hq1]
  dsimp only
  rw [resolveCell_some c2 h2, hq2]
  dsimp only
  rw [show A1Notation.construct sn cl1.col cl1.row cl2.col cl2.row
      = ⟨sn, cl1.col, cl1.row, cl2.col, cl2.row⟩ from by
    simp only [A1Notation.construct, if_neg hnb2]]

/-- Gluing: a sheet-only parser result yields a sheet-only range. -/
theorem A1_parse_sheet_only (out : String) (nm : String)
    (hp : Parser.parse out.data = .ok ⟨some nm, none, none⟩) :
    A1Notation.parse out = .ok ⟨some nm, none, none, none, none⟩ := by
  rw [A1Notation.parse.eq_def, hp]
  dsimp only
  rw [resolveCell_none]
  dsimp only
  rw [show A1Notation.construct (some nm) none none none none
      = ⟨some nm, none, none, none, none⟩ from by simp [A1Notation.construct]]

/-! ### Truthiness under the positivity hypotheses -/

/-- A positive bound is truthy. -/
theorem truthyN_some_pos (n : Nat) (h : 1 ≤ n) : truthyN (some n) = true := by
  simp only [truthyN, decide_eq_true_eq]
  omega

/-- A truthy bound is a set bound. -/
theorem truthyN_true_some (o : Option Nat) (h : truthyN o = true) : ∃ n, o = some n := by
  cases o with
  | none => cases h
  | some n => exact ⟨n, rfl⟩

/-- A non-empty sheet name is truthy. -/
theorem truthyS_some (nm : String) (h : nm.data ≠ []) : truthyS (some nm) = true := by
  simp only [truthyS, decide_eq_true_eq]
  exact (string_ne_empty_iff nm).2 h

/-! ### Parsing the wrapped outputs of `toString` -/

/-- On an input of plain data (no wrap), the top dispatch reaches the bare
branch. -/
theorem parse_bare (xs : List Char) (hne : xs ≠ []) (hal : xs.all isAlnumCh = true) :
    Parser.parse xs = Parser.parseCell xs := by
  have h := parse_land_alnum_append xs [] hne hal
  rw [List.append_nil] at h
  exact h

/-- Parsing the wrap of a single cell-like run recovers the sheet and the
run as both cells. -/
theorem parse_sheetWrap_single (sn : Option String)
    (hsn : ∀ nm, sn = some nm → nm.data ≠ []) (ys : List Char)
    (hyne : ys ≠ []) (hyal : ys.all isAlnumCh = true)
    (hcell : reCellTest (String.mk ys) = true) :
    Parser.parse (sheetWrap sn (String.mk ys)).data
      = .ok ⟨sn, some (String.mk ys), some (String.mk ys)⟩ := by
  cases sn with
  | none =>
    rw [show sheetWrap none (String.mk ys) = String.mk ys from by
      simp [sheetWrap, truthyS]]
    rw [show (String.mk ys).data = ys from rfl]
    rw [parse_bare ys hyne hyal]
    exact parseCell_land_single ys hyne hyal hcell
  | some nm =>
    have hnm := hsn nm rfl
    rw [show sheetWrap (some nm) (String.mk ys)
        = escapeSheetName nm ++ "!" ++ String.mk ys from by
      rw [sheetWrap, if_pos (truthyS_some nm hnm),
        if_pos (by simpa [string_ne_empty_iff] using hyne)]
      rfl]
    rw [show (escapeSheetName nm ++ "!" ++ String.mk ys).data
        = (escapeSheetName nm).data ++ '!' :: ys from by
      rw [String.data_append, String.data_append]
      simp]
    exact parse_escape_single nm hnm ys hyne hyal

/-- Parsing the wrap of a colon-joined pair of runs recovers the sheet and
both cells. -/
theorem parse_sheetWrap_pair (sn : Option String)
    (hsn : ∀ nm, sn = some nm → nm.data ≠ []) (ys zs : List Char)
    (hyne : ys ≠ []) (hyal : ys.all isAlnumCh = true)
    (hzne : zs ≠ []) (hzal : zs.all isAlnumCh = true) :
    Parser.parse (sheetWrap sn (String.mk (ys ++ ':' :: zs))).data
      = .ok ⟨sn, some (String.mk ys), some (String.mk zs)⟩ := by
  cases sn with
  | none =>
    rw [show sheetWrap none (String.mk (ys ++ ':' :: zs)) = String.mk (ys ++ ':' :: zs) from by
      simp [sheetWrap, truthyS]]
    rw [show (String.mk (ys ++ ':' :: zs)).data = ys ++ ':' :: zs from rfl]
    rw [parse_land_alnum_append ys (':' :: zs) hyne hyal]
    exact parseCell_land_pair ys zs hyne hyal hzne hzal
  | some nm =>
    have hnm := hsn nm rfl
    rw [show sheetWrap (some nm) (String.mk (ys ++ ':' :: zs))
        = escapeSheetName nm ++ "!" ++ String.mk (ys ++ ':' :: zs) from by
      rw [sheetWrap, if_pos (truthyS_some nm hnm),
        if_pos (by simp [string_ne_empty_iff])]
      rfl]
    rw [show (escapeSheetName nm ++ "!" ++ String.mk (ys ++ ':' :: zs)).data
        = (escapeSheetName nm).data ++ '!' :: (ys ++ ':' :: zs) from by
      rw [String.data_append, String.data_append]
      simp]
    exact parse_escape_pair nm hnm ys zs hyne hyal hzne hzal

/-! ### The round trip -/

/-- Re-parsing the colon-joined rendering of two bound pairs. -/
theorem reparse_colon (sn : Option String) (l t rr b : Option Nat)
    (hsheet : ∀ nm, sn = some nm → nm.data ≠ [])
    (hB1 : ¬(l = none ∧ t = none)) (hB2 : ¬(rr = none ∧ b = none))
    (hcl : ∀ n, l = some n → 1 ≤ n ∧ n ≤ 18278)
    (hcr : ∀ n, rr = some n → 1 ≤ n ∧ n ≤ 18278)
    (hrt : ∀ m, t = some m → 1 ≤ m)
    (hrb : ∀ m, b = some m → 1 ≤ m) :
    A1Notation.parse (sheetWrap sn (cellText l t ++ ":" ++ cellText rr b))
      = .ok ⟨sn, l, t, rr, b⟩ := by
  obtain ⟨hfrag1, hne1, hal1⟩ := parseCell_cellText l t hcl hrt hB1
  obtain ⟨hfrag2, hne2, hal2⟩ := parseCell_cellText rr b hcr hrb hB2
  have hjoin : cellText l t ++ ":" ++ cellText rr b
      = String.mk ((cellText l t).data ++ ':' :: (cellText rr b).data) := by
    apply string_ext
    rw [String.data_append, String.data_append]
    simp
  rw [hjoin]
  have hp := parse_sheetWrap_pair sn hsheet (cellText l t).data (cellText rr b).data
    hne1 hal1 hne2 hal2
  rw [string_mk_data] at hp
  exact A1_parse_cells _ sn (cellText l t) (cellText rr b) hp hne1 hne2
    ⟨l, t⟩ ⟨rr, b⟩ hfrag1 hfrag2 hB2

/-- The round trip over the shape every parsed range has, assuming every
set row bound is positive (column bounds are positive by construction). -/
theorem reparse_of_shape (sn : Option String) (l t rr b : Option Nat)
    (hsheet : ∀ nm, sn = some nm → nm.data ≠ [])
    (hdisj : (l = none ∧ t = none ∧ rr = none ∧ b = none ∧ sn ≠ none) ∨
             (¬(l = none ∧ t = none) ∧ ¬(rr = none ∧ b = none)))
    (hcl : ∀ n, l = some n → 1 ≤ n ∧ n ≤ 18278)
    (hcr : ∀ n, rr = some n → 1 ≤ n ∧ n ≤ 18278)
    (hrt : ∀ m, t = some m → 1 ≤ m)
    (hrb : ∀ m, b = some m → 1 ≤ m) :
    A1Notation.parse (A1Notation.toString ⟨sn, l, t, rr, b⟩) = .ok ⟨sn, l, t, rr, b⟩ := by
  have htos : A1Notation.toString ⟨sn, l, t, rr, b⟩ = sheetWrap sn (
      if truthyN l = true ∧ truthyN rr = true ∧ truthyN t = true ∧ truthyN b = true then
        if l = rr ∧ t = b then cellText l t
        else cellText l t ++ ":" ++ cellText rr b
      else if cellText l t ≠ "" ∧ cellText rr b ≠ "" then
        cellText l t ++ ":" ++ cellText rr b
      else cellText l t) := rfl
  rw [htos]
  rcases hdisj with ⟨hl0, ht0, hr0, hb0, hsn0⟩ | ⟨hB1, hB2⟩
  · subst hl0
    subst ht0
    subst hr0
    subst hb0
    match sn, hsn0 with
    | none, h => exact absurd rfl h
    | some nm, _ =>
      have hnm := hsheet nm rfl
      rw [if_neg (by simp [truthyN])]
      rw [if_neg (by simp [show cellText none none = "" from rfl])]
      rw [show cellText none none = "" from rfl]
      rw [show sheetWrap (some nm) "" = escapeSheetName nm from by
        rw [sheetWrap, if_pos (truthyS_some nm hnm), if_neg (by simp)]
        rfl]
      exact A1_parse_sheet_only _ nm (parse_escape_only nm hnm)
  · obtain ⟨hfrag1, hne1, hal1⟩ := parseCell_cellText l t hcl hrt hB1
    obtain ⟨hfrag2, hne2, hal2⟩ := parseCell_cellText rr b hcr hrb hB2
    by_cases h4 : truthyN l = true ∧ truthyN rr = true ∧ truthyN t = true ∧ truthyN b = true
    · by_cases heq : l = rr ∧ t = b
      · rw [if_pos h4, if_pos heq]
        rw [← heq.1, ← heq.2]
        obtain ⟨n, hn⟩ := truthyN_true_some l h4.1
        obtain ⟨m, hm⟩ := truthyN_true_some t h4.2.2.1
        obtain ⟨hn1, hn2⟩ := hcl n hn
        have hm1 := hrt m hm
        have hcellt : reCellTest (cellText l t) = true := by
          rw [hn, hm]
          exact reCellTest_cellText n m hn1 hn2 hm1
        have hp := parse_sheetWrap_single sn hsheet (cellText l t).data hne1 hal1
          (by rw [string_mk_data]; exact hcellt)
        rw [string_mk_data] at hp
        exact A1_parse_cells _ sn (cellText l t) (cellText l t) hp hne1 hne1
          ⟨l, t⟩ ⟨l, t⟩ hfrag1 hfrag1 hB1
      · rw [if_pos h4, if_neg heq]
        exact reparse_colon sn l t rr b hsheet hB1 hB2 hcl hcr hrt hrb
    · rw [if_neg h4]
      rw [if_pos ⟨(string_ne_empty_iff _).2 hne1, (string_ne_empty_iff _).2 hne2⟩]
      exact reparse_colon sn l t rr b hsheet hB1 hB2 hcl hcr hrt hrb

/-! ### C1: the parse/format round trip -/

/-- Counterexample to C1 as stated: `parse` accepts "A0" and sets row
bounds 0, but `toString` treats 0 as falsy and renders "A:A", which
re-parses with both row bounds absent — the round trip loses the set
fields `top` and `bottom`. -/
theorem C1_roundtrip_counterexample :
    A1Notation.parse "A0" = .ok ⟨none, some 1, some 0, some 1, some 0⟩ ∧
    A1Notation.toString ⟨none, some 1, some 0, some 1, some 0⟩ = "A:A" ∧
    A1Notation.parse "A:A" = .ok ⟨none, some 1, none, some 1, none⟩ ∧
    A1Notation.parse (A1Notation.toString ⟨none, some 1, some 0, some 1, some 0⟩)
      ≠ .ok ⟨none, some 1, some 0, some 1, some 0⟩ :=
  ⟨rfl, rfl, rfl, by decide⟩

/-- C1 (amended): for every string `s` accepted by `parse` whose resulting
range has every set row bound in [1, 2^53), formatting and re-parsing
returns exactly the same range in every field.  (Column bounds are always
in [1, 18278], so only the rows need a hypothesis.)  The round trip fails
on a zero row — the counterexample "A0" proved above — and also on rows at
or beyond the exact-integer range of JavaScript doubles, where `parseInt`
rounds and `toString` renders exponential notation ("A1e+21" does not
re-parse); that second regime is floating-point behaviour outside this
Nat embedding, so the amendment confines the rows below
2^53 = 9007199254740992, where the embedding and the program agree. -/
theorem C1_roundtrip_amended (s : String) (r : A1Notation)
    (h : A1Notation.parse s = .ok r)
    (ht : ∀ m, r.top = some m → 1 ≤ m ∧ m < 9007199254740992)
    (hb : ∀ m, r.bottom = some m → 1 ≤ m ∧ m < 9007199254740992) :
    A1Notation.parse (A1Notation.toString r) = .ok r := by
  obtain ⟨hsheet, hdisj, hcl, hcr⟩ := a1_parse_shape s r h
  obtain ⟨sn, l, t, rr, b⟩ := r
  exact reparse_of_shape sn l t rr b hsheet hdisj hcl hcr
    (fun m hm => (ht m hm).1) (fun m hm => (hb m hm).1)

/-- Witness for the amended C1 on "Sheet1!A1:B2". -/
theorem C1_roundtrip_amended_witness :
    A1Notation.parse (A1Notation.toString ⟨some "Sheet1", some 1, some 1, some 2, some 2⟩)
      = .ok ⟨some "Sheet1", some 1, some 1, some 2, some 2⟩ :=
  C1_roundtrip_amended "Sheet1!A1:B2" ⟨some "Sheet1", some 1, some 1, some 2, some 2⟩ rfl
    (fun m hm => by cases hm; omega) (fun m hm => by cases hm; omega)

/-! ### C9: the two implementations in the repository -/

/-- The two quoted branches agree except on a quoted sheet name followed by
a single cell, where the current parser duplicates the cell into `cell2`
and the older one leaves `cell2` unset. -/
theorem quoted_branch_agree (s : List Char) :
    OldParser.parseQuoted s = Parser.parseSheetNameAndCell s ∨
    ∃ nm c1, Parser.parseSheetNameAndCell s = .ok ⟨some nm, some c1, some c1⟩ ∧
      OldParser.parseQuoted s = .ok ⟨some nm, some c1, none⟩ ∧
      nm.data ≠ [] ∧ c1.data ≠ [] := by
  rw [OldParser.parseQuoted.eq_def, Parser.parseSheetNameAndCell.eq_def]
  cases hq : parseQuotedName s with
  | err e => exact Or.inl rfl
  | diverge => exact Or.inl rfl
  | ok pr =>
    obtain ⟨nm, rest⟩ := pr
    dsimp only
    have hnm := parseQuotedName_ok_ne _ _ _ hq
    cases rest with
    | nil => exact Or.inl rfl
    | cons c rest2 =>
      dsimp only
      by_cases hc : c = '!'
      · simp only [if_pos hc]
        cases hp2 : parseName rest2 with
        | error e => exact Or.inl rfl
        | ok pr2 =>
          obtain ⟨c1, rest3⟩ := pr2
          dsimp only
          obtain ⟨hc1ne, _, _, _⟩ := parseName_ok_inv _ _ _ hp2
          cases rest3 with
          | nil => exact Or.inr ⟨nm, c1, rfl, rfl, hnm, hc1ne⟩
          | cons c2 rest4 => exact Or.inl rfl
      · simp only [if_neg hc]
        exact Or.inl trivial

/-- The parsers agree except on quoted-sheet single-cell inputs. -/
theorem parser_agree (s : List Char) :
    OldParser.parse s = Parser.parse s ∨
    ∃ nm c1, Parser.parse s = .ok ⟨some nm, some c1, some c1⟩ ∧
      OldParser.parse s = .ok ⟨some nm, some c1, none⟩ ∧
      nm.data ≠ [] ∧ c1.data ≠ [] := by
  cases s with
  | nil => exact Or.inl rfl
  | cons c cs =>
    rw [OldParser.parse.eq_def, Parser.parse.eq_def]
    dsimp only
    by_cases hc : c = '\''
    · simp only [if_pos hc]
      exact quoted_branch_agree (c :: cs)
    · simp only [if_neg hc]
      exact Or.inl trivial

/-- When the two parsers return the same interim result, the two
`A1Notation.parse` functions agree completely. -/
theorem a1_same_of_same_ir (s : String)
    (heq : OldParser.parse s.data = Parser.parse s.data) :
    OldA1Notation.parse s = A1Notation.parse s := by
  rw [OldA1Notation.parse.eq_def, A1Notation.parse.eq_def, heq]
  cases hp : Parser.parse s.data with
  | err e => rfl
  | diverge => rfl
  | ok ir =>
    dsimp only
    obtain ⟨hsheet, hcells⟩ := Parser.parse_shape _ _ hp
    rcases hcells with ⟨h1, h2, h3⟩ | ⟨c1, c2, hc1, hc2, hne1, hne2⟩
    · rw [h1, h2, resolveCell_none]
      dsimp only
      rw [show A1Notation.construct ir.sheetName none none none none
          = ⟨ir.sheetName, none, none, none, none⟩ from by simp [A1Notation.construct]]
      cases hsn : ir.sheetName with
      | none => exact absurd hsn h3
      | some nm =>
        rw [if_pos (truthyS_some nm (hsheet nm hsn))]
    · rw [hc1, hc2, resolveCell_some c1 hne1, resolveCell_some c2 hne2]
      cases hq1 : parseCell c1 with
      | error e => rfl
      | ok cl1 =>
        dsimp only
        cases hq2 : parseCell c2 with
        | error e => rfl
        | ok cl2 =>
          dsimp only
          obtain ⟨hnb2, _⟩ := parseCell_ok_facts c2 cl2 hq2
          rw [show A1Notation.construct ir.sheetName cl1.col cl1.row cl2.col cl2.row
              = ⟨ir.sheetName, cl1.col, cl1.row, cl2.col, cl2.row⟩ from by
            simp only [A1Notation.construct, if_neg (hnb2 hne2)]]
          cases hsn : ir.sheetName with
          | none => rfl
          | some nm =>
            rw [if_pos (truthyS_some nm (hsheet nm hsn))]

/-- Full comparison of the two `A1Notation.parse` implementations. -/
theorem a1_agree (s : String) :
    OldA1Notation.parse s = A1Notation.parse s ∨
    ∃ r, A1Notation.parse s = .ok r ∧
      OldA1Notation.parse s = .ok ⟨r.sheetName, r.left, r.top, none, none⟩ ∧
      r.right = r.left ∧ r.bottom = r.top := by
  rcases parser_agree s.data with heq | ⟨nm, c1, hnew, hold, hnm, hc1⟩
  · exact Or.inl (a1_same_of_same_ir s heq)
  · cases hq1 : parseCell c1 with
    | error e =>
      left
      rw [A1Notation.parse.eq_def, hnew, OldA1Notation.parse.eq_def, hold]
      dsimp only
      rw [resolveCell_some c1 hc1, hq1]
    | ok cl1 =>
      right
      refine ⟨⟨some nm, cl1.col, cl1.row, cl1.col, cl1.row⟩, ?_, ?_, rfl, rfl⟩
      · rw [A1Notation.parse.eq_def, hnew]
        dsimp only
        rw [resolveCell_some c1 hc1, hq1]
        dsimp only
        obtain ⟨hnb, _⟩ := parseCell_ok_facts c1 cl1 hq1
        rw [show A1Notation.construct (some nm) cl1.col cl1.row cl1.col cl1.row
            = ⟨some nm, cl1.col, cl1.row, cl1.col, cl1.row⟩ from by
          simp only [A1Notation.construct, if_neg (hnb hc1)]]
      · rw [OldA1Notation.parse.eq_def, hold]
        dsimp only
        rw [resolveCell_some c1 hc1, hq1]
        dsimp only
        rw [resolveCell_none]
        dsimp only
        rw [if_pos (truthyS_some nm hnm)]

/-- Counterexample to C9 as stated: on `'S'!A1` the current implementation
sets `right` and `bottom` while the older one leaves them unset. -/
theorem C9_counterexample :
    A1Notation.parse "'S'!A1" = .ok ⟨some "S", some 1, some 1, some 1, some 1⟩ ∧
    OldA1Notation.parse "'S'!A1" = .ok ⟨some "S", some 1, some 1, none, none⟩ ∧
    OldA1Notation.parse "'S'!A1" ≠ A1Notation.parse "'S'!A1" :=
  ⟨rfl, rfl, by decide⟩

/-- C9 (amended): on every input the two implementations either agree
completely (same failure, or same range), or the input is a quoted sheet
name followed by a single cell, where the current implementation returns a
range with `right = left` and `bottom = top` and the older implementation
returns the same range with `right` and `bottom` unset. -/
theorem C9_equivalence_amended (s : String) :
    OldA1Notation.parse s = A1Notation.parse s ∨
    ∃ r, A1Notation.parse s = .ok r ∧
      OldA1Notation.parse s = .ok ⟨r.sheetName, r.left, r.top, none, none⟩ ∧
      r.right = r.left ∧ r.bottom = r.top :=
  a1_agree s

/-! ### Agreement of the two quoted-loop models -/

/-- Wherever the denotational loop records divergence, the step-indexed
transcription indeed never returns, for any number of steps. -/
theorem parseQuotedNameLoop_diverge_fuel (s name : List Char)
    (h : parseQuotedNameLoop s name = .diverge) (fuel : Nat) :
    parseQuotedNameLoopFuel fuel s name = none := by
  match s, fuel with
  | [], _ => exact parseQuotedNameLoopFuel_nil _ _
  | c :: rest, 0 => rfl
  | c :: rest, fuel + 1 =>
    by_cases hc : c = '\''
    · subst hc
      match rest with
      | [] =>
        rw [parseQuotedNameLoop.eq_def] at h
        dsimp only at h
        rw [if_pos rfl] at h
        cases h
      | c2 :: rest2 =>
        by_cases hc2 : c2 = '\''
        · subst hc2
          rw [parseQuotedNameLoop.eq_def] at h
          dsimp only at h
          rw [if_pos rfl, if_pos rfl] at h
          show parseQuotedNameLoopFuel fuel rest2 (name ++ ['\'']) = none
          exact parseQuotedNameLoop_diverge_fuel rest2 (name ++ ['\'']) h fuel
        · rw [parseQuotedNameLoop.eq_def] at h
          dsimp only at h
          rw [if_pos rfl, if_neg hc2] at h
          cases h
    · rw [parseQuotedNameLoop.eq_def] at h
      dsimp only at h
      rw [if_neg hc] at h
      rw [parseQuotedNameLoopFuel.eq_def]
      dsimp only
      rw [if_neg hc]
      exact parseQuotedNameLoop_diverge_fuel rest (name ++ [c]) h fuel

/-- Wherever the denotational loop returns, the step-indexed transcription
returns the same pair once the fuel exceeds the remaining input length. -/
theorem parseQuotedNameLoop_ok_fuel (s name nm rest : List Char)
    (h : parseQuotedNameLoop s name = .ok (nm, rest)) (fuel : Nat)
    (hf : s.length < fuel) :
    parseQuotedNameLoopFuel fuel s name = some (nm, rest) := by
  match s, fuel with
  | [], _ =>
    rw [parseQuotedNameLoop.eq_def] at h
    cases h
  | c :: rest', 0 => exact absurd hf (by omega)
  | c :: rest', fuel + 1 =>
    by_cases hc : c = '\''
    · subst hc
      match rest' with
      | [] =>
        rw [parseQuotedNameLoop.eq_def] at h
        dsimp only at h
        rw [if_pos rfl] at h
        cases h
        rfl
      | c2 :: rest2 =>
        by_cases hc2 : c2 = '\''
        · subst hc2
          rw [parseQuotedNameLoop.eq_def] at h
          dsimp only at h
          rw [if_pos rfl, if_pos rfl] at h
          show parseQuotedNameLoopFuel fuel rest2 (name ++ ['\'']) = some (nm, rest)
          exact parseQuotedNameLoop_ok_fuel rest2 (name ++ ['\'']) nm rest h fuel
            (by simp at hf ⊢; omega)
        · rw [parseQuotedNameLoop.eq_def] at h
          dsimp only at h
          rw [if_pos rfl, if_neg hc2] at h
          cases h
          rw [parseQuotedNameLoopFuel.eq_def]
          dsimp only
          rw [if_pos rfl, if_neg hc2]
    · rw [parseQuotedNameLoop.eq_def] at h
      dsimp only at h
      rw [if_neg hc] at h
      rw [parseQuotedNameLoopFuel.eq_def]
      dsimp only
      rw [if_neg hc]
      exact parseQuotedNameLoop_ok_fuel rest' (name ++ [c]) nm rest h fuel
        (by simp at hf ⊢; omega)
